import Mathlib

set_option maxRecDepth 20000

/-!
Verification development for the retrieval-and-grounded-query subsystem of
`Code/rag.py` (paper search, document processing, prompt routing, query
orchestration). Python values are embedded shallowly: strings as `String`
(Python slicing and `len` are code-point based, so they are modelled on
`String.toList`), JSON-shaped dictionaries as `Jval`, optional values as
`Option`, and the network-facing capabilities (vector retriever, LLM
completion, LlamaIndex query engine, the arXiv feed) as oracle function
parameters.
-/

namespace Rag

mutual

/-- JSON-like values, modelling the Python dictionaries attached to papers
(`github_info`, `code_info`, `dataset_info`, `metrics`) and node metadata.
Arrays and objects carry their own list types so that all recursion over
them is structural. -/
inductive Jval where
  | null : Jval
  | str : String → Jval
  | num : Int → Jval
  | jbool : Bool → Jval
  | arr : Jarr → Jval
  | obj : Jobj → Jval

/-- A JSON array. -/
inductive Jarr where
  | nil : Jarr
  | cons : Jval → Jarr → Jarr

/-- A JSON object (ordered key/value pairs, like a Python dict). -/
inductive Jobj where
  | nil : Jobj
  | cons : String → Jval → Jobj → Jobj

end

/-- Build a JSON object from a list of key/value pairs. -/
def jobjOfList : List (String × Jval) → Jobj
  | [] => Jobj.nil
  | kv :: rest => Jobj.cons kv.1 kv.2 (jobjOfList rest)

/-- Python truthiness of an `Optional[Dict]`: `None` and `{}` are falsy. -/
def truthyDict : Option (List (String × Jval)) → Bool
  | none => false
  | some d => !d.isEmpty

/-- Python `d.get(k, dflt)`. -/
def dictGetD (d : List (String × Jval)) (k : String) (dflt : Jval) : Jval :=
  match d.find? (fun kv => decide (kv.1 = k)) with
  | some kv => kv.2
  | none => dflt

/-- Python `s or dflt` for an optional string (`None` and `""` are falsy). -/
def pyOrStr : Option String → String → String
  | none, d => d
  | some s, d => if s.isEmpty then d else s

/-- Escaping of one character inside a Python `repr` of a string
(single-quoted form). -/
def pyEscape : List Char → List Char
  | [] => []
  | c :: rest =>
    (if c = '\\' then ['\\', '\\'] else if c = '\x27' then ['\\', '\x27'] else [c])
      ++ pyEscape rest

/-- Python `repr` of a string (single-quoted form, as used by `str` on
langchain message lists). -/
def pyReprStr (s : String) : String :=
  String.mk ('\x27' :: (pyEscape s.toList ++ ['\x27']))

/-- Lower-case hex digit. -/
def hexDigit (n : Nat) : Char :=
  if n < 10 then Char.ofNat (48 + n) else Char.ofNat (87 + n)

/-- Escaping of one character by Python `json.dumps` (with
`ensure_ascii=False`). -/
def jsonEscapeChar (c : Char) : List Char :=
  if c = '"' then ['\\', '"']
  else if c = '\\' then ['\\', '\\']
  else if c = '\n' then ['\\', 'n']
  else if c = '\t' then ['\\', 't']
  else if c = '\r' then ['\\', 'r']
  else if c = '\x08' then ['\\', 'b']
  else if c = '\x0c' then ['\\', 'f']
  else if c.toNat < 32 then
    '\\' :: 'u' :: '0' :: '0' :: [hexDigit (c.toNat / 16), hexDigit (c.toNat % 16)]
  else [c]

/-- `n` spaces. -/
def spaces (n : Nat) : String := String.mk (List.replicate n ' ')

mutual

/-- Python `json.dumps(v, ensure_ascii=False, indent=2)`, rendered at
indentation level `lvl`. -/
def jsonDumpsAux : Nat → Jval → String
  | _, Jval.null => "null"
  | _, Jval.str s => "\"" ++ String.mk (s.toList.flatMap jsonEscapeChar) ++ "\""
  | _, Jval.num n => toString n
  | _, Jval.jbool b => if b then "true" else "false"
  | _, Jval.arr Jarr.nil => "[]"
  | lvl, Jval.arr (Jarr.cons x xs) =>
    "[\n"
      ++ String.intercalate ",\n" (jsonDumpsArrItems (lvl + 2) (Jarr.cons x xs))
      ++ "\n" ++ spaces lvl ++ "]"
  | _, Jval.obj Jobj.nil => "\x7b\x7d"
  | lvl, Jval.obj (Jobj.cons k v kvs) =>
    "\x7b\n"
      ++ String.intercalate ",\n" (jsonDumpsObjItems (lvl + 2) (Jobj.cons k v kvs))
      ++ "\n" ++ spaces lvl ++ "\x7d"

/-- The rendered items of a JSON array, one string per element. -/
def jsonDumpsArrItems : Nat → Jarr → List String
  | _, Jarr.nil => []
  | lvl, Jarr.cons v rest =>
    (spaces lvl ++ jsonDumpsAux lvl v) :: jsonDumpsArrItems lvl rest

/-- The rendered items of a JSON object, one string per key/value pair. -/
def jsonDumpsObjItems : Nat → Jobj → List String
  | _, Jobj.nil => []
  | lvl, Jobj.cons k v rest =>
    (spaces lvl ++ "\"" ++ String.mk (k.toList.flatMap jsonEscapeChar) ++ "\": "
        ++ jsonDumpsAux lvl v)
      :: jsonDumpsObjItems lvl rest

end

/-- Python `json.dumps(v, ensure_ascii=False, indent=2)`. -/
def jsonDumps (v : Jval) : String := jsonDumpsAux 0 v

mutual

/-- Python `repr` of a JSON-like value. -/
def pyReprJ : Jval → String
  | Jval.null => "None"
  | Jval.str s => pyReprStr s
  | Jval.num n => toString n
  | Jval.jbool b => if b then "True" else "False"
  | Jval.arr xs => "[" ++ String.intercalate ", " (pyReprArrItems xs) ++ "]"
  | Jval.obj kvs => "\x7b" ++ String.intercalate ", " (pyReprObjItems kvs) ++ "\x7d"

/-- `repr` of the elements of a JSON array. -/
def pyReprArrItems : Jarr → List String
  | Jarr.nil => []
  | Jarr.cons v rest => pyReprJ v :: pyReprArrItems rest

/-- `repr` of the entries of a JSON object. -/
def pyReprObjItems : Jobj → List String
  | Jobj.nil => []
  | Jobj.cons k v rest => (pyReprStr k ++ ": " ++ pyReprJ v) :: pyReprObjItems rest

end

/-- Python `str(v)` as interpolated into an f-string. -/
def pyStr : Jval → String
  | Jval.null => "None"
  | Jval.str s => s
  | Jval.num n => toString n
  | Jval.jbool b => if b then "True" else "False"
  | Jval.arr xs => pyReprJ (Jval.arr xs)
  | Jval.obj kvs => pyReprJ (Jval.obj kvs)

/-- `PaperData` from `rag.py` (field for field). -/
structure PaperData where
  title : String
  authors : List String
  summary : String
  pdf_url : Option String
  published : Option String
  github_url : Option String
  github_info : Option (List (String × Jval))
  code_info : Option (List (String × Jval))
  dataset_info : Option (List (String × Jval))
  metrics : Option (List (String × Jval))

/-!
## The text splitter

`DocumentProcessor` delegates chunking to langchain's
`RecursiveCharacterTextSplitter(chunk_size=1000, chunk_overlap=200,
separators=["\n\n", "\n", "。", "！", "？", ";", ":", "，", " ", ""])`.
The splitter below is modelled from that library's implementation
(`keep_separator=True`, `is_separator_regex=False`, whitespace-stripping
joins), working over `List Char` since Python strings index by code point.
-/

/-- Python `str.strip` whitespace set. -/
def pyIsSpace (c : Char) : Bool :=
  c = ' ' || c = '\t' || c = '\n' || c = '\r' || c = '\x0b' || c = '\x0c'

/-- Python `str.strip()`. -/
def pyStripChars (s : List Char) : List Char :=
  ((s.dropWhile pyIsSpace).reverse.dropWhile pyIsSpace).reverse

/-- Whether `needle` occurs as a contiguous substring of `hay`
(`re.search` with an escaped literal pattern). -/
def containsSub (hay needle : List Char) : Bool :=
  hay.tails.any (fun t => needle.isPrefixOf t)

/-- First occurrence of `sep` in the text: returns the part before it and
the part after it. -/
def findSep (sep : List Char) : List Char → Option (List Char × List Char)
  | [] => none
  | c :: rest =>
    if sep.isPrefixOf (c :: rest) then some ([], (c :: rest).drop sep.length)
    else
      match findSep sep rest with
      | some pr => some (c :: pr.1, pr.2)
      | none => none

/-- Split a text at every occurrence of `sep` (separators removed), with a
fuel argument bounding the number of occurrences. -/
def splitParts (sep : List Char) : Nat → List Char → List (List Char)
  | 0, text => [text]
  | fuel + 1, text =>
    match findSep sep text with
    | none => [text]
    | some pr => pr.1 :: splitParts sep fuel pr.2

/-- langchain `_split_text_with_regex` with `keep_separator=True`: split on
`sep`, re-attaching each separator to the start of the following piece, and
drop empty pieces. -/
def splitWithSep (sep text : List Char) : List (List Char) :=
  match splitParts sep (text.length + 1) text with
  | [] => [text]
  | c0 :: rest =>
    (c0 :: rest.map (fun c => sep ++ c)).filter (fun s => !s.isEmpty)

/-- langchain `TextSplitter._join_docs`: join with the separator, strip
whitespace, and drop the chunk if it is then empty. -/
def joinDocs (docs : List (List Char)) (sep : List Char) : Option (List Char) :=
  let text := pyStripChars (List.intercalate sep docs)
  if text.isEmpty then none else some text

/-- The pop-loop of langchain `TextSplitter._merge_splits`: drop leading
splits from the running window until the retained total is at most
`overlap` (and the next split fits). -/
def popWhile (sepLen chunkSize overlap dlen : Nat) :
    List (List Char) → Nat → List (List Char) × Nat
  | [], total => ([], total)
  | d0 :: rest, total =>
    if total > overlap ∨ (total + dlen + sepLen > chunkSize ∧ total > 0) then
      popWhile sepLen chunkSize overlap dlen rest
        (total - (d0.length + (if rest.isEmpty then 0 else sepLen)))
    else (d0 :: rest, total)

/-- langchain `TextSplitter._merge_splits`: greedily pack splits into chunks
of at most `chunkSize` characters, carrying at most `overlap` characters of
whole trailing splits into the next chunk. State: remaining splits, current
window, window total, emitted chunks. -/
def mergeLoop (sep : List Char) (chunkSize overlap : Nat) :
    List (List Char) → List (List Char) → Nat → List (List Char) → List (List Char)
  | [], cur, _, docs => docs ++ (joinDocs cur sep).toList
  | d :: rest, cur, total, docs =>
    if total + d.length + (if cur.isEmpty then 0 else sep.length) > chunkSize then
      let docs1 := if cur.isEmpty then docs else docs ++ (joinDocs cur sep).toList
      let pr := if cur.isEmpty then (cur, total)
                else popWhile sep.length chunkSize overlap d.length cur total
      mergeLoop sep chunkSize overlap rest (pr.1 ++ [d])
        (pr.2 + d.length + (if pr.1.isEmpty then 0 else sep.length)) docs1
    else
      mergeLoop sep chunkSize overlap rest (cur ++ [d])
        (total + d.length + (if cur.isEmpty then 0 else sep.length)) docs

/-- The separator-selection loop of langchain
`RecursiveCharacterTextSplitter._split_text`: pick the first separator that
is empty or occurs in the text (defaulting to the last one), together with
the remaining separators for recursive splitting. -/
def chooseSep : List (List Char) → List Char → List Char × List (List Char)
  | [], _ => ([], [])
  | s :: rest, text =>
    if s.isEmpty then (s, [])
    else if containsSub text s then (s, rest)
    else
      match rest with
      | [] => (s, [])
      | _ :: _ => chooseSep rest text

/-- The split-processing loop of `_split_text`: accumulate small splits and
merge them; recursively re-split oversized splits when finer separators
remain (`recur = some f`), otherwise emit them whole. -/
def processSplits (chunkSize overlap : Nat)
    (recur : Option (List Char → List (List Char))) :
    List (List Char) → List (List Char) → List (List Char) → List (List Char)
  | [], fc, goods =>
    if goods.isEmpty then fc
    else fc ++ mergeLoop [] chunkSize overlap goods [] 0 []
  | s :: rest, fc, goods =>
    if s.length < chunkSize then
      processSplits chunkSize overlap recur rest fc (goods ++ [s])
    else
      let fc1 := if goods.isEmpty then fc
                 else fc ++ mergeLoop [] chunkSize overlap goods [] 0 []
      match recur with
      | none => processSplits chunkSize overlap recur rest (fc1 ++ [s]) []
      | some f => processSplits chunkSize overlap recur rest (fc1 ++ f s) []

/-- langchain `RecursiveCharacterTextSplitter._split_text`. The fuel is the
depth of separator recursion (bounded by the number of separators). -/
def splitTextFuel (chunkSize overlap : Nat) : Nat → List (List Char) → List Char → List (List Char)
  | 0, _, text => [text]
  | fuel + 1, seps, text =>
    let pr := chooseSep seps text
    let splits :=
      if pr.1.isEmpty then (text.map (fun c => [c])).filter (fun s => !s.isEmpty)
      else splitWithSep pr.1 text
    processSplits chunkSize overlap
      (if pr.2.isEmpty then none
       else some (fun s => splitTextFuel chunkSize overlap fuel pr.2 s))
      splits [] []

/-- The separator list configured in `DocumentProcessor.__init__`. -/
def ragSeparators : List (List Char) :=
  [['\n', '\n'], ['\n'], ['。'], ['！'], ['？'], [';'], [':'], ['，'], [' '], []]

/-- `text_splitter.split_text` on code points, with the configured
`chunk_size=1000`, `chunk_overlap=200` and separators. -/
def splitTextChars (text : List Char) : List (List Char) :=
  splitTextFuel 1000 200 ragSeparators.length ragSeparators text

/-- `text_splitter.split_text` on strings. -/
def splitText (s : String) : List String :=
  (splitTextChars s.toList).map (fun cs => String.mk cs)

/-!
## Document processing (`DocumentProcessor`)
-/

/-- A LlamaIndex `Document`/node: text plus metadata. -/
structure Node where
  text : String
  metadata : List (String × Jval)

/-- `DocumentProcessor.format_paper_content`. -/
def format_paper_content (p : PaperData) : String :=
  "标题: " ++ p.title
    ++ "\n作者: " ++ String.intercalate ", " p.authors
    ++ "\n发布时间: " ++ pyOrStr p.published "未知"
    ++ "\n\n摘要:\n" ++ p.summary
    ++ "\n\nPDF链接: " ++ pyOrStr p.pdf_url "无"

/-- The `github_text` block of `process_code_info`. -/
def githubText (gh : List (String × Jval)) : String :=
  "GitHub仓库: " ++ pyStr (dictGetD gh "url" (Jval.str ""))
    ++ "\n描述: " ++ pyStr (dictGetD gh "description" (Jval.str "无"))
    ++ "\n主要语言: " ++ pyStr (dictGetD gh "language" (Jval.str "未知"))
    ++ "\nStar 数: " ++ pyStr (dictGetD gh "stars" (Jval.num 0))
    ++ "\nFork 数: " ++ pyStr (dictGetD gh "forks" (Jval.num 0))
    ++ "\n\nREADME:\n" ++ pyStr (dictGetD gh "readme" (Jval.str "无README信息"))

/-- The `code_text` block of `process_code_info`. -/
def codeText (ci : List (String × Jval)) : String :=
  "代码实现信息:\n" ++ jsonDumps (Jval.obj (jobjOfList ci))

/-- The `dataset_text` block of `process_code_info`. -/
def datasetText (di : List (String × Jval)) : String :=
  "数据集信息:\n" ++ jsonDumps (Jval.obj (jobjOfList di))

/-- The `metrics_text` block of `process_code_info`. -/
def metricsText (mi : List (String × Jval)) : String :=
  "性能指标:\n" ++ jsonDumps (Jval.obj (jobjOfList mi))

/-- The GitHub document of `process_code_info` (emitted when
`paper.github_info` is truthy). -/
def githubDocs (p : PaperData) : List Node :=
  match p.github_info with
  | none => []
  | some gh =>
    if gh.isEmpty then []
    else
      [Node.mk (githubText gh)
        [("source", Jval.str "github"), ("paper_title", Jval.str p.title),
         ("repo_url", dictGetD gh "url" Jval.null)]]

/-- The Papers-with-Code repository document of `process_code_info`. -/
def codeDocs (p : PaperData) : List Node :=
  match p.code_info with
  | none => []
  | some ci =>
    if ci.isEmpty then []
    else
      [Node.mk (codeText ci)
        [("source", Jval.str "PWC code info"), ("paper_title", Jval.str p.title)]]

/-- The dataset document of `process_code_info`. -/
def datasetDocs (p : PaperData) : List Node :=
  match p.dataset_info with
  | none => []
  | some di =>
    if di.isEmpty then []
    else
      [Node.mk (datasetText di)
        [("source", Jval.str "PWC dataset"), ("paper_title", Jval.str p.title)]]

/-- The metrics document of `process_code_info`. -/
def metricsDocs (p : PaperData) : List Node :=
  match p.metrics with
  | none => []
  | some mi =>
    if mi.isEmpty then []
    else
      [Node.mk (metricsText mi)
        [("source", Jval.str "PWC metrics"), ("paper_title", Jval.str p.title)]]

/-- `DocumentProcessor.process_code_info`: one whole-text document per truthy
field, in source order. -/
def process_code_info (p : PaperData) : List Node :=
  githubDocs p ++ codeDocs p ++ datasetDocs p ++ metricsDocs p

/-- One split chunk of the main paper document, with its metadata. -/
def paperChunkNode (p : PaperData) (i : Nat) (chunk : String) : Node :=
  Node.mk chunk
    [("source", Jval.str "paper"), ("title", Jval.str p.title),
     ("authors", Jval.str (String.intercalate ", " p.authors)),
     ("chunk_id", Jval.num (Int.ofNat i))]

/-- `DocumentProcessor.process_papers`: split the formatted paper text into
chunks, then — only when `github_info` or `code_info` is truthy — append the
`process_code_info` documents. -/
def process_papers (papers : List PaperData) : List Node :=
  papers.flatMap (fun p =>
    ((splitText (format_paper_content p)).enum.map (fun ic => paperChunkNode p ic.1 ic.2))
      ++ (if truthyDict p.github_info || truthyDict p.code_info
          then process_code_info p else []))

/-!
## Prompt templates (`PromptManager`)
-/

/-- The three built-in prompt templates. -/
inductive TemplateId where
  | paper_analysis : TemplateId
  | code_analysis : TemplateId
  | comprehensive : TemplateId
deriving DecidableEq

/-- The `paper_analysis` template, rendered. -/
def paperAnalysisText (context query : String) : String :=
  "你是一个专业的学术论文分析助手。基于以下论文内容回答问题。\n\n论文内容:\n"
    ++ context ++ "\n\n问题: " ++ query
    ++ "\n\n请提供详细分析，包括:\n1. 直接回答问题\n2. 引用具体论文内容\n3. 提供论文标题作为来源\n\n回答:"

/-- The `code_analysis` template, rendered. -/
def codeAnalysisText (context query : String) : String :=
  "你是一个代码分析专家。基于以下代码和论文信息回答问题。\n\n相关信息:\n"
    ++ context ++ "\n\n问题: " ++ query
    ++ "\n\n请提供:\n1. 算法理论基础\n2. 代码实现特点\n3. 性能分析\n4. 使用方法\n\n回答:"

/-- The `comprehensive` template, rendered. -/
def comprehensiveText (context query history : String) : String :=
  "基于以下信息和对话历史回答问题。\n\n对话历史:\n" ++ history
    ++ "\n\n相关信息:\n" ++ context ++ "\n\n当前问题: " ++ query
    ++ "\n\n请提供准确、详细的回答:"

/-- The `PromptManager.templates` dictionary (key order as in source). -/
def promptTemplates : List (String × TemplateId) :=
  [("paper_analysis", TemplateId.paper_analysis),
   ("code_analysis", TemplateId.code_analysis),
   ("comprehensive", TemplateId.comprehensive)]

/-- `PromptManager.get_template`: dictionary lookup defaulting to the
`comprehensive` template. -/
def get_template (name : String) : TemplateId :=
  match promptTemplates.find? (fun kv => decide (kv.1 = name)) with
  | some kv => kv.2
  | none => TemplateId.comprehensive

/-- Render a template with context, query and history (the first two
templates ignore the history, as in the source). -/
def renderTemplate : TemplateId → String → String → String → String
  | TemplateId.paper_analysis, c, q, _ => paperAnalysisText c q
  | TemplateId.code_analysis, c, q, _ => codeAnalysisText c q
  | TemplateId.comprehensive, c, q, h => comprehensiveText c q h

/-!
## Conversation memory rendering

`ConversationBufferMemory(memory_key="chat_history", input_key="query",
return_messages=True)` stores one Human/AI message pair per query; the
orchestrator injects `load_memory_variables({})["chat_history"]` — a Python
list of messages — into the template, where `str.format` renders it via
`str`, i.e. as `[HumanMessage(content='…'), AIMessage(content='…'), …]`.
-/

/-- `repr` of one `HumanMessage`. -/
def humanMsgRepr (q : String) : String :=
  "HumanMessage(content=" ++ pyReprStr q ++ ")"

/-- `repr` of one `AIMessage`. -/
def aiMsgRepr (a : String) : String :=
  "AIMessage(content=" ++ pyReprStr a ++ ")"

/-- The comma-separated message reprs of the memory buffer. -/
def renderMsgs : List (String × String) → String
  | [] => ""
  | qa :: rest =>
    humanMsgRepr qa.1 ++ ", " ++ aiMsgRepr qa.2
      ++ (if rest.isEmpty then "" else ", " ++ renderMsgs rest)

/-- Python `str` of the loaded chat-history message list. -/
def renderChatHistory (mem : List (String × String)) : String :=
  "[" ++ renderMsgs mem ++ "]"

/-!
## The query orchestrator (`RAGSystem.query`)

External capabilities are oracle parameters: `sim` is
`VectorIndexRetriever.retrieve` (over the full node store, with
`similarity_top_k`), `llm` is the DeepSeek completion on a rendered prompt,
and `engine` is the LlamaIndex `query_engine.query` fallback. The state
carries the node store of the built index (`none` before any build), whether
`setup_llm` has populated the chains, and the memory buffer.
-/

/-- Mutable `RAGSystem` state relevant to `query`. -/
structure RAGState where
  index : Option (List Node)
  chains_ready : Bool
  memory : List (String × String)

/-- Metadata lookup (`'k' in node.metadata` and `node.metadata['k']`). -/
def metaGet? (m : List (String × Jval)) (k : String) : Option Jval :=
  match m.find? (fun kv => decide (kv.1 = k)) with
  | some kv => some kv.2
  | none => none

/-- `'title' in node.metadata and node.metadata['title'] in selected_papers`. -/
def titleMatches (sel : List String) (n : Node) : Bool :=
  match metaGet? n.metadata "title" with
  | some (Jval.str t) => sel.contains t
  | _ => false

/-- `node.metadata['source'] in ['github', 'PWC code info'] and
node.metadata['paper_title'] in selected_codes`. -/
def codeMatches (sel : List String) (n : Node) : Bool :=
  (match metaGet? n.metadata "source" with
   | some (Jval.str s) => s = "github" ∨ s = "PWC code info"
   | _ => false)
  && (match metaGet? n.metadata "paper_title" with
      | some (Jval.str t) => sel.contains t
      | _ => false)

/-- Candidate-node selection of `RAGSystem.query`: metadata filters when a
selector is truthy, with fallback to the vector retriever (`top_k=5`). -/
def selectNodes (sim : List Node → String → Nat → List Node)
    (allNodes : List Node) (question : String)
    (selected_papers selected_codes : List String) : List Node :=
  if selected_papers.isEmpty && selected_codes.isEmpty then
    sim allNodes question 5
  else
    let nodes1 := if !selected_papers.isEmpty
                  then allNodes.filter (titleMatches selected_papers) else []
    let nodes2 := if !selected_codes.isEmpty && nodes1.isEmpty
                  then nodes1 ++ allNodes.filter (codeMatches selected_codes)
                  else nodes1
    if nodes2.isEmpty then sim allNodes question 5 else nodes2

/-- Python `len` of a string (code points). -/
def pyLen (s : String) : Nat := s.toList.length

/-- Python `s[:n]` (code points). -/
def pyTake (s : String) (n : Nat) : String := String.mk (s.toList.take n)

/-- The source excerpt: `node.text[:200] + "..." if len(node.text) > 200
else node.text`. -/
def truncExcerpt (t : String) : String :=
  if 200 < pyLen t then pyTake t 200 ++ "..." else t

/-- The double-newline-joined context of the selected nodes. -/
def contextOf (nodes : List Node) : String :=
  String.intercalate "\n\n" (nodes.map (fun n => n.text))

/-- The `sources` list of the query result. -/
def sourcesOf (nodes : List Node) : List (String × List (String × Jval)) :=
  nodes.map (fun n => (truncExcerpt n.text, n.metadata))

/-- The result dictionary returned by `RAGSystem.query`. -/
structure QueryResult where
  query : String
  response : String
  sources : List (String × List (String × Jval))
  method : String

/-- The chain selected for a mode: `setup_llm` registers one chain per
template, so `query_type in self.chains` holds exactly for the template
names once the chains are ready. -/
def chainFor (ready : Bool) (query_type : String) : Option (String × TemplateId) :=
  if ready then promptTemplates.find? (fun kv => decide (kv.1 = query_type)) else none

/-- The `ValueError` message raised before any index build. -/
def indexNotBuiltMsg : String := "请先搜索论文并构建索引"

/-- `RAGSystem.query`. Returns the result (or the raised error), the new
state, and the list of prompts sent to the completion capability. -/
def query (sim : List Node → String → Nat → List Node)
    (llm : String → String) (engine : String → String)
    (st : RAGState) (question : String) (query_type : String)
    (selected_papers selected_codes : List String) :
    Except String QueryResult × RAGState × List String :=
  match st.index with
  | none => (Except.error indexNotBuiltMsg, st, [])
  | some allNodes =>
    let nodes := selectNodes sim allNodes question selected_papers selected_codes
    let context := contextOf nodes
    let history := renderChatHistory st.memory
    match chainFor st.chains_ready query_type with
    | some kv =>
      let prompt := renderTemplate kv.2 context question history
      let response := llm prompt
      let mem1 := if kv.1 = "comprehensive"
                  then st.memory ++ [(question, response)] else st.memory
      (Except.ok (QueryResult.mk question response (sourcesOf nodes)
          ("langchain_" ++ query_type)),
       RAGState.mk st.index st.chains_ready mem1, [prompt])
    | none =>
      (Except.ok (QueryResult.mk question (engine question) (sourcesOf nodes)
          "llamaindex"),
       st, [])

/-- The response of a query outcome (empty on error). -/
def queryResponse (r : Except String QueryResult × RAGState × List String) : String :=
  match r.1 with
  | Except.ok q => q.response
  | Except.error _ => ""

/-- The method tag of a query outcome (empty on error). -/
def queryMethod (r : Except String QueryResult × RAGState × List String) : String :=
  match r.1 with
  | Except.ok q => q.method
  | Except.error _ => ""

/-- The sources of a query outcome. -/
def querySources (r : Except String QueryResult × RAGState × List String) :
    List (String × List (String × Jval)) :=
  match r.1 with
  | Except.ok q => q.sources
  | Except.error _ => []

/-- The state after a query. -/
def stateOf (r : Except String QueryResult × RAGState × List String) : RAGState :=
  r.2.1

/-- The memory after a query. -/
def queryMemory (r : Except String QueryResult × RAGState × List String) :
    List (String × String) :=
  r.2.1.memory

/-- The prompts the query sent to the completion capability. -/
def queryPrompts (r : Except String QueryResult × RAGState × List String) :
    List String :=
  r.2.2

/-!
## ArXiv search (`ArxivAPI.search_papers`)
-/

/-- One result record of the arXiv client (`published` already in ISO
format, as `search_papers` stores it). -/
structure ArxivResult where
  title : String
  authors : List String
  summary : String
  pdf_url : Option String
  published : Option String

/-- The `PaperData` built from one arXiv result. -/
def arxivResultToPaper (r : ArxivResult) : PaperData :=
  PaperData.mk r.title r.authors r.summary r.pdf_url r.published
    none none none none none

/-- `ArxivAPI.search_papers`. `feed` is the arXiv client's result stream for
a query (the client yields at most `max_results` entries, modelled by
`take`); `enrich` is `enrich_paper_data` (network-dependent GitHub
enrichment). -/
def search_papers (feed : String → List ArxivResult)
    (enrich : PaperData → PaperData) (queryStr : String) (max_results : Nat) :
    List PaperData :=
  let max_results_limit := min max_results 50
  ((feed queryStr).take max_results_limit).map (fun r => enrich (arxivResultToPaper r))

/-!
## Helper lemmas and concrete fixtures
-/

/-- `toList` distributes over string append. -/
theorem strToList_append (a b : String) : (a ++ b).toList = a.toList ++ b.toList := rfl

/-- `toList` of `String.mk`. -/
theorem strToList_mk (l : List Char) : (String.mk l).toList = l := rfl

/-- A retriever oracle returning nothing. -/
def simEmpty : List Node → String → Nat → List Node := fun _ _ _ => []

/-- A retriever oracle returning the whole store. -/
def simAll : List Node → String → Nat → List Node := fun all _ _ => all

/-- A constant completion oracle. -/
def llm0 : String → String := fun _ => "L"

/-- A constant query-engine oracle. -/
def engine0 : String → String := fun _ => "E"

/-- A source-kind `paper` chunk of paper "A". -/
def paperNodeA : Node :=
  Node.mk "paper chunk A"
    [("source", Jval.str "paper"), ("title", Jval.str "A"),
     ("authors", Jval.str "X"), ("chunk_id", Jval.num 0)]

/-- A source-kind `github` chunk belonging to paper "A" (keyed by
`paper_title`, not `title`). -/
def githubNodeA : Node :=
  Node.mk "github doc A"
    [("source", Jval.str "github"), ("paper_title", Jval.str "A"),
     ("repo_url", Jval.str "u")]

/-- A source-kind `paper` chunk of paper "B". -/
def paperNodeB : Node :=
  Node.mk "paper chunk B"
    [("source", Jval.str "paper"), ("title", Jval.str "B"),
     ("authors", Jval.str "Y"), ("chunk_id", Jval.num 0)]

/-- A small indexed node store. -/
def testNodes : List Node := [paperNodeA, githubNodeA, paperNodeB]

/-- A ready state whose index holds `testNodes`. -/
def stW : RAGState := RAGState.mk (some testNodes) true []

/-!
## C6 — query before build
-/

/-- C6: for every question and mode, calling `query` before any successful
index build fails with the IndexNotBuilt error (the raised `ValueError`),
not a normal result; no completion call is made and the state is
unchanged. -/
theorem query_before_build_errors
    (sim : List Node → String → Nat → List Node) (llm engine : String → String)
    (st : RAGState) (q qt : String) (sp sc : List String)
    (h : st.index = none) :
    query sim llm engine st q qt sp sc = (Except.error indexNotBuiltMsg, st, []) := by
  obtain ⟨idx, ready, mem⟩ := st
  simp only [RAGState.index] at h
  subst h
  rfl

/-- Witness for C6 at a concrete unbuilt state. -/
theorem query_before_build_errors_witness :
    query simEmpty llm0 engine0 (RAGState.mk none true []) "q" "comprehensive" [] []
      = (Except.error indexNotBuiltMsg, RAGState.mk none true [], []) :=
  query_before_build_errors simEmpty llm0 engine0 (RAGState.mk none true [])
    "q" "comprehensive" [] [] rfl

/-!
## C10 — arXiv result cap
-/

/-- C10: the arXiv search issues the request with `min(max_results, 50)`,
so the returned paper list never exceeds 50 records, and capping the
requested count at 50 does not change the result. -/
theorem arxiv_result_cap (feed : String → List ArxivResult)
    (enrich : PaperData → PaperData) (q : String) (mr : Nat) :
    (search_papers feed enrich q mr).length ≤ 50
      ∧ search_papers feed enrich q mr = search_papers feed enrich q (min mr 50) := by
  constructor
  · simp only [search_papers, List.length_map, List.length_take]
    omega
  · have h : min (min mr 50) 50 = min mr 50 := by omega
    simp [search_papers, h]

/-!
## C2 — the method tag
-/

/-- C2 counterexample: the returned method tag of a comprehensive query is
`"langchain_comprehensive"`, not `"mode:" + mode`. -/
theorem method_tag_not_mode_colon :
    queryMethod (query simEmpty llm0 engine0 stW "q" "comprehensive" [] [])
      = "langchain_" ++ "comprehensive"
  ∧ queryMethod (query simEmpty llm0 engine0 stW "q" "comprehensive" [] [])
      ≠ "mode:" ++ "comprehensive" := by
  constructor
  · rfl
  · decide

/-- C2 (amended): for every successful query, the method tag is
`"langchain_" + mode` when the mode has a registered chain, and
`"llamaindex"` otherwise — never `"mode:" + mode`. -/
theorem method_tag_value
    (sim : List Node → String → Nat → List Node) (llm engine : String → String)
    (st : RAGState) (q qt : String) (sp sc : List String) (ns : List Node)
    (h : st.index = some ns) :
    ((chainFor st.chains_ready qt).isSome = true →
      queryMethod (query sim llm engine st q qt sp sc) = "langchain_" ++ qt)
  ∧ ((chainFor st.chains_ready qt).isSome = false →
      queryMethod (query sim llm engine st q qt sp sc) = "llamaindex") := by
  constructor
  · intro hc
    rcases hkv : chainFor st.chains_ready qt with _ | kv
    · rw [hkv] at hc
      simp at hc
    · simp [query, h, hkv, queryMethod]
  · intro hc
    rcases hkv : chainFor st.chains_ready qt with _ | kv
    · simp [query, h, hkv, queryMethod]
    · rw [hkv] at hc
      simp at hc

/-- Witness for C2 at a concrete built state. -/
theorem method_tag_value_witness :
    queryMethod (query simEmpty llm0 engine0 stW "q" "paper_analysis" [] [])
      = "langchain_" ++ "paper_analysis" :=
  (method_tag_value simEmpty llm0 engine0 stW "q" "paper_analysis" [] []
    testNodes rfl).1 (by decide)

/-!
## C3 — the selected-papers filter
-/

/-- Matching on the `paper_title` metadata key. -/
def paperTitleMatches (sel : List String) (n : Node) : Bool :=
  match metaGet? n.metadata "paper_title" with
  | some (Jval.str t) => sel.contains t
  | _ => false

/-- Following the spec's words for claim C3 (for comparison with the
code's `selectNodes`): the candidate set is every chunk whose `title`
metadata or whose `paper_title` metadata lies in `selectedPapers`. -/
def specSelectedCandidates (allNodes : List Node) (sel : List String) : List Node :=
  allNodes.filter (fun n => titleMatches sel n || paperTitleMatches sel n)

/-- C3 counterexample: with `selectedPapers = ["A"]` over a store holding a
`paper` chunk of "A" and a `github` chunk whose `paper_title` is "A", the
code's candidate set is not the spec's — the `paper_title`-keyed chunk is
not matched. -/
theorem paper_title_chunks_not_matched :
    selectNodes simEmpty testNodes "q" ["A"] []
      ≠ specSelectedCandidates testNodes ["A"] := by
  intro h
  exact absurd (congrArg List.length h) (by decide)

/-- C3 (amended): when `selectedPapers` is non-empty and matches at least
one chunk, the candidate set is exactly the chunks whose `title` metadata
lies in `selectedPapers` (chunks keyed only by `paper_title` are not
matched), so the assembled context contains only chunks of the selected
papers. -/
theorem selected_papers_title_filter
    (sim : List Node → String → Nat → List Node) (allNodes : List Node)
    (q : String) (sp sc : List String)
    (hsp : sp.isEmpty = false)
    (hne : (allNodes.filter (titleMatches sp)).isEmpty = false) :
    selectNodes sim allNodes q sp sc = allNodes.filter (titleMatches sp)
  ∧ ∀ n ∈ selectNodes sim allNodes q sp sc, titleMatches sp n = true := by
  have h1 : selectNodes sim allNodes q sp sc = allNodes.filter (titleMatches sp) := by
    simp [selectNodes, hsp, hne]
  refine ⟨h1, ?_⟩
  intro n hn
  rw [h1] at hn
  exact List.of_mem_filter hn

/-- Witness for C3 at a concrete store. -/
theorem selected_papers_title_filter_witness :
    selectNodes simEmpty testNodes "q" ["A"] ["A"]
      = testNodes.filter (titleMatches ["A"]) :=
  (selected_papers_title_filter simEmpty testNodes "q" ["A"] ["A"]
    (by decide) (by decide)).1

/-!
## C4 — selector precedence and similarity fallback
-/

/-- C4: `selectedPapers` takes precedence (`selectedCodeOwners` is only
consulted when the paper filter matched nothing), and whenever the applied
filters yield nothing — or no selector was supplied — the orchestrator
falls back to similarity search over the full index with `top_k = 5`. -/
theorem selector_precedence_and_fallback
    (sim : List Node → String → Nat → List Node) (allNodes : List Node)
    (q : String) (sp sc : List String) :
    (sp.isEmpty = false → (allNodes.filter (titleMatches sp)).isEmpty = false →
      selectNodes sim allNodes q sp sc = allNodes.filter (titleMatches sp))
  ∧ (sp.isEmpty = false → (allNodes.filter (titleMatches sp)).isEmpty = true →
      sc.isEmpty = false → (allNodes.filter (codeMatches sc)).isEmpty = false →
      selectNodes sim allNodes q sp sc = allNodes.filter (codeMatches sc))
  ∧ (sp.isEmpty = false → (allNodes.filter (titleMatches sp)).isEmpty = true →
      sc.isEmpty = false → (allNodes.filter (codeMatches sc)).isEmpty = true →
      selectNodes sim allNodes q sp sc = sim allNodes q 5)
  ∧ (sp.isEmpty = false → (allNodes.filter (titleMatches sp)).isEmpty = true →
      sc.isEmpty = true →
      selectNodes sim allNodes q sp sc = sim allNodes q 5)
  ∧ (sp.isEmpty = true → sc.isEmpty = false →
      (allNodes.filter (codeMatches sc)).isEmpty = false →
      selectNodes sim allNodes q sp sc = allNodes.filter (codeMatches sc))
  ∧ (sp.isEmpty = true → sc.isEmpty = false →
      (allNodes.filter (codeMatches sc)).isEmpty = true →
      selectNodes sim allNodes q sp sc = sim allNodes q 5)
  ∧ (sp.isEmpty = true → sc.isEmpty = true →
      selectNodes sim allNodes q sp sc = sim allNodes q 5) := by
  refine ⟨?_, ?_, ?_, ?_, ?_, ?_, ?_⟩
  · intro h1 h2
    simp [selectNodes, h1, h2]
  · intro h1 h2 h3 h4
    have h2' : List.filter (titleMatches sp) allNodes = [] := List.isEmpty_iff.mp h2
    simp [selectNodes, h1, h2', h3]
    intro hall
    have hnil : List.filter (codeMatches sc) allNodes = [] := by
      rw [List.filter_eq_nil_iff]
      intro a ha
      simp [hall a ha]
    rw [hnil] at h4
    simp at h4
  · intro h1 h2 h3 h4
    have h2' : List.filter (titleMatches sp) allNodes = [] := List.isEmpty_iff.mp h2
    have h4' : List.filter (codeMatches sc) allNodes = [] := List.isEmpty_iff.mp h4
    simp [selectNodes, h1, h2', h3, h4']
  · intro h1 h2 h3
    have h2' : List.filter (titleMatches sp) allNodes = [] := List.isEmpty_iff.mp h2
    simp [selectNodes, h1, h2', h3]
  · intro h1 h2 h3
    simp [selectNodes, h1, h2]
    intro hall
    have hnil : List.filter (codeMatches sc) allNodes = [] := by
      rw [List.filter_eq_nil_iff]
      intro a ha
      simp [hall a ha]
    rw [hnil] at h3
    simp at h3
  · intro h1 h2 h3
    have h3' : List.filter (codeMatches sc) allNodes = [] := List.isEmpty_iff.mp h3
    simp [selectNodes, h1, h2, h3']
  · intro h1 h2
    simp [selectNodes, h1, h2]

/-- Witness for C4: precedence with both selectors supplied, and fallback
on a selector matching nothing. -/
theorem selector_precedence_and_fallback_witness :
    selectNodes simEmpty testNodes "q" ["A"] ["A"]
      = testNodes.filter (titleMatches ["A"])
  ∧ selectNodes simEmpty testNodes "q" ["Z"] [] = simEmpty testNodes "q" 5 :=
  ⟨(selector_precedence_and_fallback simEmpty testNodes "q" ["A"] ["A"]).1
      (by decide) (by decide),
   (selector_precedence_and_fallback simEmpty testNodes "q" ["Z"] []).2.2.2.1
      (by decide) (by decide) (by decide)⟩

/-!
## C5 — unrecognized modes
-/

/-- C5 counterexample: with a completion oracle answering `"L"` on every
prompt and a query engine answering `"E"`, the answer for an unrecognized
mode is `"E"` — produced by the LlamaIndex query engine, not by rendering
the comprehensive prompt through the completion capability. -/
theorem unrecognized_mode_not_comprehensive :
    queryResponse (query simEmpty llm0 engine0 stW "q" "badmode" [] []) = engine0 "q"
  ∧ queryResponse (query simEmpty llm0 engine0 stW "q" "badmode" [] [])
      ≠ llm0 (renderTemplate TemplateId.comprehensive
          (contextOf (selectNodes simEmpty testNodes "q" [] [])) "q"
          (renderChatHistory stW.memory)) := by
  constructor
  · rfl
  · decide

/-- C5 (amended): `get_template` alone falls back to the comprehensive
template on an unrecognized mode name, but the query path never calls it:
an unrecognized mode is answered by the LlamaIndex query engine, tagged
`"llamaindex"`, leaving the memory unchanged. -/
theorem unrecognized_mode_engine_fallback
    (sim : List Node → String → Nat → List Node) (llm engine : String → String)
    (st : RAGState) (q qt : String) (sp sc : List String) (ns : List Node)
    (h : st.index = some ns)
    (h1 : qt ≠ "paper_analysis") (h2 : qt ≠ "code_analysis")
    (h3 : qt ≠ "comprehensive") :
    get_template qt = TemplateId.comprehensive
  ∧ queryResponse (query sim llm engine st q qt sp sc) = engine q
  ∧ queryMethod (query sim llm engine st q qt sp sc) = "llamaindex"
  ∧ queryMemory (query sim llm engine st q qt sp sc) = st.memory := by
  have hfind : promptTemplates.find? (fun kv => decide (kv.1 = qt)) = none := by
    simp [promptTemplates, List.find?, Ne.symm h1, Ne.symm h2, Ne.symm h3]
  have hc : chainFor st.chains_ready qt = none := by
    simp [chainFor, hfind]
  refine ⟨?_, ?_, ?_, ?_⟩
  · simp [get_template, hfind]
  · simp [query, h, hc, queryResponse]
  · simp [query, h, hc, queryMethod]
  · simp [query, h, hc, queryMemory]

/-- Witness for C5 at a concrete unrecognized mode. -/
theorem unrecognized_mode_engine_fallback_witness :
    get_template "badmode" = TemplateId.comprehensive
  ∧ queryResponse (query simEmpty llm0 engine0 stW "q" "badmode" [] []) = engine0 "q"
  ∧ queryMethod (query simEmpty llm0 engine0 stW "q" "badmode" [] []) = "llamaindex"
  ∧ queryMemory (query simEmpty llm0 engine0 stW "q" "badmode" [] []) = stW.memory :=
  unrecognized_mode_engine_fallback simEmpty llm0 engine0 stW "q" "badmode" [] []
    testNodes rfl (by decide) (by decide) (by decide)

/-!
## C9 — source excerpts
-/

/-- C9: the query result's sources are exactly the selected chunks with
their metadata, the excerpt being the chunk text truncated to its first 200
characters plus the ellipsis marker when longer than 200 characters (203
code points in total), and the untouched full text otherwise. -/
theorem source_excerpt_truncation
    (sim : List Node → String → Nat → List Node) (llm engine : String → String)
    (st : RAGState) (q qt : String) (sp sc : List String) (ns : List Node)
    (h : st.index = some ns) :
    querySources (query sim llm engine st q qt sp sc)
      = sourcesOf (selectNodes sim ns q sp sc)
  ∧ ∀ n ∈ selectNodes sim ns q sp sc,
      (200 < pyLen n.text →
        truncExcerpt n.text = pyTake n.text 200 ++ "..."
          ∧ pyLen (truncExcerpt n.text) = 203)
      ∧ (pyLen n.text ≤ 200 → truncExcerpt n.text = n.text) := by
  constructor
  · rcases hc : chainFor st.chains_ready qt with _ | kv <;>
      simp [query, h, hc, querySources]
  · intro n _
    constructor
    · intro hlen
      have he : truncExcerpt n.text = pyTake n.text 200 ++ "..." := by
        simp [truncExcerpt, hlen]
      refine ⟨he, ?_⟩
      rw [he]
      have h200 : 200 ≤ n.text.toList.length := by
        simp only [pyLen] at hlen
        omega
      have h3' : ("..." : String).toList.length = 3 := rfl
      simp only [pyLen, strToList_append, pyTake, strToList_mk, List.length_append,
        List.length_take, h3']
      omega
    · intro hle
      simp [truncExcerpt, Nat.not_lt.mpr hle]

/-- A 250-character chunk. -/
def node250 : Node :=
  Node.mk (String.mk (List.replicate 250 'x')) [("source", Jval.str "paper")]

/-- A 150-character chunk. -/
def node150 : Node :=
  Node.mk (String.mk (List.replicate 150 'y')) [("source", Jval.str "paper")]

/-- A ready state indexing the two excerpt test chunks. -/
def stExcerpt : RAGState := RAGState.mk (some [node250, node150]) true []

/-- Witness for C9: the 250-character chunk yields 200 characters plus the
marker; the 150-character chunk passes through unchanged. -/
theorem source_excerpt_truncation_witness :
    querySources (query simAll llm0 engine0 stExcerpt "q" "comprehensive" [] [])
      = sourcesOf (selectNodes simAll [node250, node150] "q" [] [])
  ∧ truncExcerpt node250.text = pyTake node250.text 200 ++ "..."
  ∧ pyLen (truncExcerpt node250.text) = 203
  ∧ truncExcerpt node150.text = node150.text := by
  have h := source_excerpt_truncation simAll llm0 engine0 stExcerpt "q" "comprehensive"
    [] [] [node250, node150] rfl
  have hsel : selectNodes simAll [node250, node150] "q" [] [] = [node250, node150] := rfl
  have hm1 : node250 ∈ selectNodes simAll [node250, node150] "q" [] [] := by
    rw [hsel]
    exact List.mem_cons_self _ _
  have hm2 : node150 ∈ selectNodes simAll [node250, node150] "q" [] [] := by
    rw [hsel]
    exact List.mem_cons_of_mem _ (List.mem_cons_self _ _)
  have e1 := (h.2 node250 hm1).1 (by decide)
  have e2 := (h.2 node150 hm2).2 (by decide)
  exact ⟨h.1, e1.1, e1.2, e2⟩

/-!
## C1 — extra metadata chunks
-/

/-- Whether a node's `source` metadata equals `s`. -/
def isSourceB (n : Node) (s : String) : Bool :=
  match metaGet? n.metadata "source" with
  | some (Jval.str t) => decide (t = s)
  | _ => false

/-- How many emitted documents carry source kind `s`. -/
def countSource (docs : List Node) (s : String) : Nat :=
  (docs.filter (fun n => isSourceB n s)).length

/-- A paper chunk's source kind is `"paper"`. -/
theorem isSourceB_paperChunk (p : PaperData) (i : Nat) (c s : String) :
    isSourceB (paperChunkNode p i c) s = decide ("paper" = s) := rfl

/-- Split paper chunks never carry one of the metadata source kinds. -/
theorem filter_paperChunks (l : List (Nat × String)) (p : PaperData) (s : String)
    (hs : s ≠ "paper") :
    (l.map (fun ic => paperChunkNode p ic.1 ic.2)).filter (fun n => isSourceB n s)
      = [] := by
  induction l with
  | nil => rfl
  | cons a t ih =>
    simp only [List.map_cons, List.filter_cons, isSourceB_paperChunk]
    rw [if_neg (by simp [Ne.symm hs])]
    exact ih

/-- `countSource` distributes over append. -/
theorem countSource_append (a b : List Node) (s : String) :
    countSource (a ++ b) s = countSource a s + countSource b s := by
  simp [countSource, List.filter_append]

/-- The github segment counted at its own source kind. -/
theorem countSource_githubDocs (p : PaperData) :
    countSource (githubDocs p) "github"
      = (if truthyDict p.github_info then 1 else 0) := by
  rcases hg : p.github_info with _ | gh
  · simp [githubDocs, countSource, truthyDict, hg]
  · cases he : gh.isEmpty with
    | true => simp [githubDocs, countSource, truthyDict, hg, he]
    | false =>
      simp [githubDocs, countSource, truthyDict, hg, he, isSourceB, metaGet?, List.find?]

/-- The github segment contributes nothing to other source kinds. -/
theorem countSource_githubDocs_ne (p : PaperData) (s : String) (hs : s ≠ "github") :
    countSource (githubDocs p) s = 0 := by
  rcases hg : p.github_info with _ | gh
  · simp [githubDocs, countSource, hg]
  · cases he : gh.isEmpty with
    | true => simp [githubDocs, countSource, hg, he]
    | false =>
      simp [githubDocs, countSource, hg, he, isSourceB, metaGet?, List.find?, Ne.symm hs]

/-- The code-info segment counted at its own source kind. -/
theorem countSource_codeDocs (p : PaperData) :
    countSource (codeDocs p) "PWC code info"
      = (if truthyDict p.code_info then 1 else 0) := by
  rcases hg : p.code_info with _ | ci
  · simp [codeDocs, countSource, truthyDict, hg]
  · cases he : ci.isEmpty with
    | true => simp [codeDocs, countSource, truthyDict, hg, he]
    | false =>
      simp [codeDocs, countSource, truthyDict, hg, he, isSourceB, metaGet?, List.find?]

/-- The code-info segment contributes nothing to other source kinds. -/
theorem countSource_codeDocs_ne (p : PaperData) (s : String) (hs : s ≠ "PWC code info") :
    countSource (codeDocs p) s = 0 := by
  rcases hg : p.code_info with _ | ci
  · simp [codeDocs, countSource, hg]
  · cases he : ci.isEmpty with
    | true => simp [codeDocs, countSource, hg, he]
    | false =>
      simp [codeDocs, countSource, hg, he, isSourceB, metaGet?, List.find?, Ne.symm hs]

/-- The dataset segment counted at its own source kind. -/
theorem countSource_datasetDocs (p : PaperData) :
    countSource (datasetDocs p) "PWC dataset"
      = (if truthyDict p.dataset_info then 1 else 0) := by
  rcases hg : p.dataset_info with _ | di
  · simp [datasetDocs, countSource, truthyDict, hg]
  · cases he : di.isEmpty with
    | true => simp [datasetDocs, countSource, truthyDict, hg, he]
    | false =>
      simp [datasetDocs, countSource, truthyDict, hg, he, isSourceB, metaGet?, List.find?]

/-- The dataset segment contributes nothing to other source kinds. -/
theorem countSource_datasetDocs_ne (p : PaperData) (s : String) (hs : s ≠ "PWC dataset") :
    countSource (datasetDocs p) s = 0 := by
  rcases hg : p.dataset_info with _ | di
  · simp [datasetDocs, countSource, hg]
  · cases he : di.isEmpty with
    | true => simp [datasetDocs, countSource, hg, he]
    | false =>
      simp [datasetDocs, countSource, hg, he, isSourceB, metaGet?, List.find?, Ne.symm hs]

/-- The metrics segment counted at its own source kind. -/
theorem countSource_metricsDocs (p : PaperData) :
    countSource (metricsDocs p) "PWC metrics"
      = (if truthyDict p.metrics then 1 else 0) := by
  rcases hg : p.metrics with _ | mi
  · simp [metricsDocs, countSource, truthyDict, hg]
  · cases he : mi.isEmpty with
    | true => simp [metricsDocs, countSource, truthyDict, hg, he]
    | false =>
      simp [metricsDocs, countSource, truthyDict, hg, he, isSourceB, metaGet?, List.find?]

/-- The metrics segment contributes nothing to other source kinds. -/
theorem countSource_metricsDocs_ne (p : PaperData) (s : String) (hs : s ≠ "PWC metrics") :
    countSource (metricsDocs p) s = 0 := by
  rcases hg : p.metrics with _ | mi
  · simp [metricsDocs, countSource, hg]
  · cases he : mi.isEmpty with
    | true => simp [metricsDocs, countSource, hg, he]
    | false =>
      simp [metricsDocs, countSource, hg, he, isSourceB, metaGet?, List.find?, Ne.symm hs]

/-- Shape of a member of the github segment. -/
theorem mem_githubDocs {p : PaperData} {n : Node} (hn : n ∈ githubDocs p) :
    ∃ gh, p.github_info = some gh ∧ gh.isEmpty = false ∧
      n = Node.mk (githubText gh)
        [("source", Jval.str "github"), ("paper_title", Jval.str p.title),
         ("repo_url", dictGetD gh "url" Jval.null)] := by
  rcases hg : p.github_info with _ | gh
  · rw [githubDocs, hg] at hn
    simp at hn
  · rw [githubDocs, hg] at hn
    cases he : gh.isEmpty with
    | true => simp [he] at hn
    | false =>
      simp [he] at hn
      exact ⟨gh, rfl, he, hn⟩

/-- Shape of a member of the code-info segment. -/
theorem mem_codeDocs {p : PaperData} {n : Node} (hn : n ∈ codeDocs p) :
    ∃ ci, p.code_info = some ci ∧ ci.isEmpty = false ∧
      n = Node.mk (codeText ci)
        [("source", Jval.str "PWC code info"), ("paper_title", Jval.str p.title)] := by
  rcases hg : p.code_info with _ | ci
  · rw [codeDocs, hg] at hn
    simp at hn
  · rw [codeDocs, hg] at hn
    cases he : ci.isEmpty with
    | true => simp [he] at hn
    | false =>
      simp [he] at hn
      exact ⟨ci, rfl, he, hn⟩

/-- Shape of a member of the dataset segment. -/
theorem mem_datasetDocs {p : PaperData} {n : Node} (hn : n ∈ datasetDocs p) :
    ∃ di, p.dataset_info = some di ∧ di.isEmpty = false ∧
      n = Node.mk (datasetText di)
        [("source", Jval.str "PWC dataset"), ("paper_title", Jval.str p.title)] := by
  rcases hg : p.dataset_info with _ | di
  · rw [datasetDocs, hg] at hn
    simp at hn
  · rw [datasetDocs, hg] at hn
    cases he : di.isEmpty with
    | true => simp [he] at hn
    | false =>
      simp [he] at hn
      exact ⟨di, rfl, he, hn⟩

/-- Shape of a member of the metrics segment. -/
theorem mem_metricsDocs {p : PaperData} {n : Node} (hn : n ∈ metricsDocs p) :
    ∃ mi, p.metrics = some mi ∧ mi.isEmpty = false ∧
      n = Node.mk (metricsText mi)
        [("source", Jval.str "PWC metrics"), ("paper_title", Jval.str p.title)] := by
  rcases hg : p.metrics with _ | mi
  · rw [metricsDocs, hg] at hn
    simp at hn
  · rw [metricsDocs, hg] at hn
    cases he : mi.isEmpty with
    | true => simp [he] at hn
    | false =>
      simp [he] at hn
      exact ⟨mi, rfl, he, hn⟩

/-- A paper with only `dataset_info` (no github or code info). -/
def paperDatasetOnly : PaperData :=
  PaperData.mk "T" ["A"] "S" none none none none none
    (some [("results", Jval.arr Jarr.nil)]) none

/-- C1 counterexample: a paper whose only enrichment field is a present
(truthy) `dataset_info` yields NO dataset chunk from the document
processor — the extra chunks are gated on `github_info or code_info`. -/
theorem dataset_only_paper_no_extra_chunk :
    truthyDict paperDatasetOnly.dataset_info = true
  ∧ countSource (process_papers [paperDatasetOnly]) "PWC dataset" = 0 := by
  constructor
  · rfl
  · decide

/-- C1 (amended): only when `github_info` or `code_info` is truthy does
`process_papers` emit the extra chunks; in that case it emits exactly one
unsplit chunk per present field (github, code info, dataset, metrics), each
tagged with its own source kind and the owning paper's title, its text
being the complete rendered field content (never passed through the
splitter). A paper with only `dataset_info` or only `metrics` yields no
extra chunk. -/
theorem extra_chunks_gated (p : PaperData)
    (h : truthyDict p.github_info = true ∨ truthyDict p.code_info = true) :
    countSource (process_papers [p]) "github"
      = (if truthyDict p.github_info then 1 else 0)
  ∧ countSource (process_papers [p]) "PWC code info"
      = (if truthyDict p.code_info then 1 else 0)
  ∧ countSource (process_papers [p]) "PWC dataset"
      = (if truthyDict p.dataset_info then 1 else 0)
  ∧ countSource (process_papers [p]) "PWC metrics"
      = (if truthyDict p.metrics then 1 else 0)
  ∧ (∀ n ∈ process_papers [p], isSourceB n "paper" = false →
      metaGet? n.metadata "paper_title" = some (Jval.str p.title))
  ∧ (∀ n ∈ process_papers [p], isSourceB n "github" = true →
      ∃ gh, p.github_info = some gh ∧ n.text = githubText gh)
  ∧ (∀ n ∈ process_papers [p], isSourceB n "PWC code info" = true →
      ∃ ci, p.code_info = some ci ∧ n.text = codeText ci)
  ∧ (∀ n ∈ process_papers [p], isSourceB n "PWC dataset" = true →
      ∃ di, p.dataset_info = some di ∧ n.text = datasetText di)
  ∧ (∀ n ∈ process_papers [p], isSourceB n "PWC metrics" = true →
      ∃ mi, p.metrics = some mi ∧ n.text = metricsText mi) := by
  have hguard : (truthyDict p.github_info || truthyDict p.code_info) = true := by
    rcases h with h | h <;> simp [h]
  have hpp : process_papers [p]
      = ((splitText (format_paper_content p)).enum.map
          (fun ic => paperChunkNode p ic.1 ic.2)) ++ process_code_info p := by
    simp only [process_papers, List.flatMap_cons, List.flatMap_nil, List.append_nil, hguard]
    simp
  have hpaper0 : ∀ s, s ≠ "paper" →
      countSource ((splitText (format_paper_content p)).enum.map
        (fun ic => paperChunkNode p ic.1 ic.2)) s = 0 := by
    intro s hs
    simp [countSource, filter_paperChunks _ _ _ hs]
  have hextra : ∀ s, countSource (process_code_info p) s
      = countSource (githubDocs p) s + countSource (codeDocs p) s
        + countSource (datasetDocs p) s + countSource (metricsDocs p) s := by
    intro s
    simp [process_code_info, countSource_append]
    omega
  have hmem : ∀ n ∈ process_papers [p],
      (∃ ic : Nat × String, n = paperChunkNode p ic.1 ic.2)
      ∨ n ∈ githubDocs p ∨ n ∈ codeDocs p ∨ n ∈ datasetDocs p ∨ n ∈ metricsDocs p := by
    intro n hn
    rw [hpp] at hn
    rcases List.mem_append.mp hn with hn | hn
    · obtain ⟨ic, _, hic⟩ := List.mem_map.mp hn
      exact Or.inl ⟨ic, hic.symm⟩
    · rw [process_code_info] at hn
      rcases List.mem_append.mp hn with hn | hn
      · rcases List.mem_append.mp hn with hn | hn
        · rcases List.mem_append.mp hn with hn | hn
          · exact Or.inr (Or.inl hn)
          · exact Or.inr (Or.inr (Or.inl hn))
        · exact Or.inr (Or.inr (Or.inr (Or.inl hn)))
      · exact Or.inr (Or.inr (Or.inr (Or.inr hn)))
  refine ⟨?_, ?_, ?_, ?_, ?_, ?_, ?_, ?_, ?_⟩
  · rw [hpp, countSource_append, hpaper0 _ (by decide), hextra,
      countSource_githubDocs, countSource_codeDocs_ne _ _ (by decide),
      countSource_datasetDocs_ne _ _ (by decide), countSource_metricsDocs_ne _ _ (by decide)]
    simp
  · rw [hpp, countSource_append, hpaper0 _ (by decide), hextra,
      countSource_codeDocs, countSource_githubDocs_ne _ _ (by decide),
      countSource_datasetDocs_ne _ _ (by decide), countSource_metricsDocs_ne _ _ (by decide)]
    simp
  · rw [hpp, countSource_append, hpaper0 _ (by decide), hextra,
      countSource_datasetDocs, countSource_githubDocs_ne _ _ (by decide),
      countSource_codeDocs_ne _ _ (by decide), countSource_metricsDocs_ne _ _ (by decide)]
    simp
  · rw [hpp, countSource_append, hpaper0 _ (by decide), hextra,
      countSource_metricsDocs, countSource_githubDocs_ne _ _ (by decide),
      countSource_codeDocs_ne _ _ (by decide), countSource_datasetDocs_ne _ _ (by decide)]
    simp
  · intro n hn hns
    rcases hmem n hn with ⟨ic, rfl⟩ | hn | hn | hn | hn
    · rw [isSourceB_paperChunk] at hns
      simp at hns
    · obtain ⟨gh, _, _, rfl⟩ := mem_githubDocs hn
      rfl
    · obtain ⟨ci, _, _, rfl⟩ := mem_codeDocs hn
      rfl
    · obtain ⟨di, _, _, rfl⟩ := mem_datasetDocs hn
      rfl
    · obtain ⟨mi, _, _, rfl⟩ := mem_metricsDocs hn
      rfl
  · intro n hn hns
    rcases hmem n hn with ⟨ic, rfl⟩ | hn | hn | hn | hn
    · rw [isSourceB_paperChunk] at hns
      simp at hns
    · obtain ⟨gh, hg, _, rfl⟩ := mem_githubDocs hn
      exact ⟨gh, hg, rfl⟩
    · obtain ⟨ci, _, _, rfl⟩ := mem_codeDocs hn
      simp [isSourceB, metaGet?, List.find?] at hns
    · obtain ⟨di, _, _, rfl⟩ := mem_datasetDocs hn
      simp [isSourceB, metaGet?, List.find?] at hns
    · obtain ⟨mi, _, _, rfl⟩ := mem_metricsDocs hn
      simp [isSourceB, metaGet?, List.find?] at hns
  · intro n hn hns
    rcases hmem n hn with ⟨ic, rfl⟩ | hn | hn | hn | hn
    · rw [isSourceB_paperChunk] at hns
      simp at hns
    · obtain ⟨gh, _, _, rfl⟩ := mem_githubDocs hn
      simp [isSourceB, metaGet?, List.find?] at hns
    · obtain ⟨ci, hg, _, rfl⟩ := mem_codeDocs hn
      exact ⟨ci, hg, rfl⟩
    · obtain ⟨di, _, _, rfl⟩ := mem_datasetDocs hn
      simp [isSourceB, metaGet?, List.find?] at hns
    · obtain ⟨mi, _, _, rfl⟩ := mem_metricsDocs hn
      simp [isSourceB, metaGet?, List.find?] at hns
  · intro n hn hns
    rcases hmem n hn with ⟨ic, rfl⟩ | hn | hn | hn | hn
    · rw [isSourceB_paperChunk] at hns
      simp at hns
    · obtain ⟨gh, _, _, rfl⟩ := mem_githubDocs hn
      simp [isSourceB, metaGet?, List.find?] at hns
    · obtain ⟨ci, _, _, rfl⟩ := mem_codeDocs hn
      simp [isSourceB, metaGet?, List.find?] at hns
    · obtain ⟨di, hg, _, rfl⟩ := mem_datasetDocs hn
      exact ⟨di, hg, rfl⟩
    · obtain ⟨mi, _, _, rfl⟩ := mem_metricsDocs hn
      simp [isSourceB, metaGet?, List.find?] at hns
  · intro n hn hns
    rcases hmem n hn with ⟨ic, rfl⟩ | hn | hn | hn | hn
    · rw [isSourceB_paperChunk] at hns
      simp at hns
    · obtain ⟨gh, _, _, rfl⟩ := mem_githubDocs hn
      simp [isSourceB, metaGet?, List.find?] at hns
    · obtain ⟨ci, _, _, rfl⟩ := mem_codeDocs hn
      simp [isSourceB, metaGet?, List.find?] at hns
    · obtain ⟨di, _, _, rfl⟩ := mem_datasetDocs hn
      simp [isSourceB, metaGet?, List.find?] at hns
    · obtain ⟨mi, hg, _, rfl⟩ := mem_metricsDocs hn
      exact ⟨mi, hg, rfl⟩

/-- A paper with both `github_info` and `dataset_info` present. -/
def paperGithubDataset : PaperData :=
  PaperData.mk "T" ["A"] "S" none none none
    (some [("url", Jval.str "u")]) none
    (some [("results", Jval.arr Jarr.nil)]) none

/-- Witness for C1 at a concrete enriched paper. -/
theorem extra_chunks_gated_witness :
    countSource (process_papers [paperGithubDataset]) "github"
      = (if truthyDict paperGithubDataset.github_info then 1 else 0)
  ∧ countSource (process_papers [paperGithubDataset]) "PWC dataset"
      = (if truthyDict paperGithubDataset.dataset_info then 1 else 0) := by
  have h := extra_chunks_gated paperGithubDataset (Or.inl (by decide))
  exact ⟨h.1, h.2.2.1⟩

/-!
## C7 — conversation memory
-/

/-- `a` occurs as a contiguous segment of `b`. -/
def listContains (a b : List Char) : Prop := ∃ l r, b = l ++ a ++ r

/-- Trivial containment. -/
theorem listContains_refl (a : List Char) : listContains a a :=
  ⟨[], [], by simp⟩

/-- Containment is preserved by prepending. -/
theorem listContains_app_left (c : List Char) {a b : List Char}
    (h : listContains a b) : listContains a (c ++ b) := by
  obtain ⟨l, r, rfl⟩ := h
  exact ⟨c ++ l, r, by simp⟩

/-- Containment is preserved by appending. -/
theorem listContains_app_right (c : List Char) {a b : List Char}
    (h : listContains a b) : listContains a (b ++ c) := by
  obtain ⟨l, r, rfl⟩ := h
  exact ⟨l, r ++ c, by simp⟩

/-- Containment composes. -/
theorem listContains_trans {a b c : List Char}
    (h1 : listContains a b) (h2 : listContains b c) : listContains a c := by
  obtain ⟨l1, r1, rfl⟩ := h1
  obtain ⟨l2, r2, rfl⟩ := h2
  exact ⟨l2 ++ l1, r1 ++ r2, by simp⟩

/-- Lift containment through a string appended on the right. -/
theorem contains_lift_left (u : String) {a : List Char} {s : String}
    (h : listContains a s.toList) : listContains a (s ++ u).toList := by
  rw [strToList_append]
  exact listContains_app_right _ h

/-- Lift containment through a string prepended on the left. -/
theorem contains_lift_right (u : String) {a : List Char} {s : String}
    (h : listContains a s.toList) : listContains a (u ++ s).toList := by
  rw [strToList_append]
  exact listContains_app_left _ h

/-- The string contains no characters that Python `repr` escapes. -/
def noSpecial (s : String) : Prop :=
  ∀ c ∈ s.toList, c ≠ '\\' ∧ c ≠ '\x27'

/-- `pyEscape` is the identity on escape-free text. -/
theorem pyEscape_eq_self {l : List Char}
    (h : ∀ c ∈ l, c ≠ '\\' ∧ c ≠ '\x27') : pyEscape l = l := by
  induction l with
  | nil => rfl
  | cons c t ih =>
    have hc := h c (List.mem_cons_self _ _)
    simp [pyEscape, hc.1, hc.2, ih (fun x hx => h x (List.mem_cons_of_mem _ hx))]

/-- Shape of `pyReprStr` on escape-free text. -/
theorem pyReprStr_toList {s : String} (h : noSpecial s) :
    (pyReprStr s).toList = '\x27' :: (s.toList ++ ['\x27']) := by
  rw [pyReprStr, strToList_mk, pyEscape_eq_self h]

/-- An escape-free string occurs verbatim inside its `repr`. -/
theorem listContains_pyReprStr {s : String} (h : noSpecial s) :
    listContains s.toList (pyReprStr s).toList := by
  rw [pyReprStr_toList h]
  exact ⟨['\x27'], ['\x27'], by simp⟩

/-- An escape-free question/answer occurs verbatim in its message repr. -/
theorem contains_humanMsg {q : String} (h : noSpecial q) :
    listContains q.toList (humanMsgRepr q).toList := by
  apply listContains_trans (listContains_pyReprStr h)
  unfold humanMsgRepr
  exact contains_lift_left ")"
    (contains_lift_right "HumanMessage(content=" (listContains_refl _))

/-- Likewise for the AI message. -/
theorem contains_aiMsg {a : String} (h : noSpecial a) :
    listContains a.toList (aiMsgRepr a).toList := by
  apply listContains_trans (listContains_pyReprStr h)
  unfold aiMsgRepr
  exact contains_lift_left ")"
    (contains_lift_right "AIMessage(content=" (listContains_refl _))

/-- Every stored turn's message reprs occur inside the rendered buffer. -/
theorem renderMsgs_contains {mem : List (String × String)} {q a : String}
    (h : (q, a) ∈ mem) :
    listContains (humanMsgRepr q).toList (renderMsgs mem).toList
  ∧ listContains (aiMsgRepr a).toList (renderMsgs mem).toList := by
  induction mem with
  | nil => simp at h
  | cons qa rest ih =>
    rcases List.mem_cons.mp h with h | h
    · obtain rfl := h.symm
      constructor
      · show listContains (humanMsgRepr q).toList
          (humanMsgRepr q ++ ", " ++ aiMsgRepr a
            ++ (if rest.isEmpty then "" else ", " ++ renderMsgs rest)).toList
        apply contains_lift_left
        apply contains_lift_left
        apply contains_lift_left
        exact listContains_refl _
      · show listContains (aiMsgRepr a).toList
          (humanMsgRepr q ++ ", " ++ aiMsgRepr a
            ++ (if rest.isEmpty then "" else ", " ++ renderMsgs rest)).toList
        apply contains_lift_left
        exact contains_lift_right _ (listContains_refl _)
    · have hne : rest.isEmpty = false := by
        cases rest with
        | nil => simp at h
        | cons x t => rfl
      have hmain := ih h
      have hstep : ∀ x : List Char,
          listContains x (renderMsgs rest).toList →
          listContains x (renderMsgs (qa :: rest)).toList := by
        intro x hx
        show listContains x
          (humanMsgRepr qa.1 ++ ", " ++ aiMsgRepr qa.2
            ++ (if rest.isEmpty then "" else ", " ++ renderMsgs rest)).toList
        rw [hne]
        simp only [Bool.false_eq_true, if_false]
        exact contains_lift_right _ (contains_lift_right ", " hx)
      exact ⟨hstep _ hmain.1, hstep _ hmain.2⟩

/-- An escape-free stored turn occurs verbatim in the rendered chat
history. -/
theorem chatHistory_contains {mem : List (String × String)} {q a : String}
    (h : (q, a) ∈ mem) (hq : noSpecial q) (ha : noSpecial a) :
    listContains q.toList (renderChatHistory mem).toList
  ∧ listContains a.toList (renderChatHistory mem).toList := by
  have hm := renderMsgs_contains h
  constructor
  · apply listContains_trans (listContains_trans (contains_humanMsg hq) hm.1)
    unfold renderChatHistory
    exact contains_lift_left "]" (contains_lift_right "[" (listContains_refl _))
  · apply listContains_trans (listContains_trans (contains_aiMsg ha) hm.2)
    unfold renderChatHistory
    exact contains_lift_left "]" (contains_lift_right "[" (listContains_refl _))

/-- The rendered history occurs inside the comprehensive prompt. -/
theorem comprehensiveText_contains_history (c q h : String) :
    listContains h.toList (comprehensiveText c q h).toList := by
  unfold comprehensiveText
  apply contains_lift_left
  apply contains_lift_left
  apply contains_lift_left
  apply contains_lift_left
  apply contains_lift_left
  exact contains_lift_right _ (listContains_refl _)

/-- The name of a registered chain is the requested mode name. -/
theorem chainFor_name {ready : Bool} {qt : String} {kv : String × TemplateId}
    (h : chainFor ready qt = some kv) : kv.1 = qt := by
  unfold chainFor at h
  cases ready with
  | false => simp at h
  | true =>
    simp only [if_true] at h
    have := List.find?_some h
    simpa using this

/-- C7: the (question, response) pair is appended to memory exactly by
comprehensive-mode queries (other modes, recognized or not, leave the
memory unchanged), and after two sequential comprehensive queries the
second query's rendered history contains the first query's question and
answer text (verbatim, for repr-escape-free text). -/
theorem memory_comprehensive_only :
    (∀ (sim : List Node → String → Nat → List Node) (llm engine : String → String)
        (st : RAGState) (q qt : String) (sp sc : List String),
      qt ≠ "comprehensive" →
        queryMemory (query sim llm engine st q qt sp sc) = st.memory)
  ∧ (∀ (sim : List Node → String → Nat → List Node) (llm engine : String → String)
        (st : RAGState) (q : String) (sp sc : List String) (ns : List Node),
      st.index = some ns → st.chains_ready = true →
        queryMemory (query sim llm engine st q "comprehensive" sp sc)
          = st.memory
            ++ [(q, queryResponse (query sim llm engine st q "comprehensive" sp sc))])
  ∧ (∀ (sim : List Node → String → Nat → List Node) (llm engine : String → String)
        (st0 : RAGState) (q1 q2 : String) (sp sc : List String) (ns : List Node),
      st0.index = some ns → st0.chains_ready = true →
      noSpecial q1 →
      noSpecial (queryResponse (query sim llm engine st0 q1 "comprehensive" sp sc)) →
      listContains q1.toList
        (String.toList ((queryPrompts (query sim llm engine
          (stateOf (query sim llm engine st0 q1 "comprehensive" sp sc))
          q2 "comprehensive" sp sc)).headD ""))
      ∧ listContains
          (queryResponse (query sim llm engine st0 q1 "comprehensive" sp sc)).toList
          (String.toList ((queryPrompts (query sim llm engine
            (stateOf (query sim llm engine st0 q1 "comprehensive" sp sc))
            q2 "comprehensive" sp sc)).headD ""))) := by
  have hcomp : chainFor true "comprehensive"
      = some ("comprehensive", TemplateId.comprehensive) := by decide
  refine ⟨?_, ?_, ?_⟩
  · intro sim llm engine st q qt sp sc hqt
    rcases hidx : st.index with _ | ns
    · simp [query, hidx, queryMemory]
    · rcases hc : chainFor st.chains_ready qt with _ | kv
      · simp [query, hidx, hc, queryMemory]
      · have hname := chainFor_name hc
        simp [query, hidx, hc, queryMemory, hname, hqt]
  · intro sim llm engine st q sp sc ns hidx hready
    have hc : chainFor st.chains_ready "comprehensive"
        = some ("comprehensive", TemplateId.comprehensive) := by
      rw [hready]
      exact hcomp
    simp [query, hidx, hc, queryMemory, queryResponse]
  · intro sim llm engine st0 q1 q2 sp sc ns hidx hready hq1 ha1
    have hc : chainFor st0.chains_ready "comprehensive"
        = some ("comprehensive", TemplateId.comprehensive) := by
      rw [hready]
      exact hcomp
    have hstate : stateOf (query sim llm engine st0 q1 "comprehensive" sp sc)
        = RAGState.mk (some ns) true
            (st0.memory
              ++ [(q1, queryResponse (query sim llm engine st0 q1 "comprehensive" sp sc))]) := by
      simp [query, hidx, hc, hcomp, stateOf, queryResponse, hready]
    rw [hstate]
    have hprompts : ∀ M : List (String × String),
        queryPrompts (query sim llm engine (RAGState.mk (some ns) true M)
          q2 "comprehensive" sp sc)
        = [comprehensiveText (contextOf (selectNodes sim ns q2 sp sc)) q2
            (renderChatHistory M)] := by
      intro M
      simp [query, queryPrompts, hcomp, renderTemplate]
    rw [hprompts, List.headD_cons]
    have hmem : (q1, queryResponse (query sim llm engine st0 q1 "comprehensive" sp sc))
        ∈ st0.memory
          ++ [(q1, queryResponse (query sim llm engine st0 q1 "comprehensive" sp sc))] :=
      List.mem_append_right _ (List.mem_singleton.mpr rfl)
    have hhist := chatHistory_contains hmem hq1 ha1
    exact ⟨listContains_trans hhist.1 (comprehensiveText_contains_history _ _ _),
           listContains_trans hhist.2 (comprehensiveText_contains_history _ _ _)⟩

/-- Witness for C7 at a concrete session: a paper-analysis query leaves
memory unchanged, a comprehensive query appends its turn, and the second
comprehensive query's prompt contains the first turn verbatim. -/
theorem memory_comprehensive_only_witness :
    queryMemory (query simEmpty llm0 engine0 stW "x" "paper_analysis" [] []) = stW.memory
  ∧ queryMemory (query simEmpty llm0 engine0 stW "x" "comprehensive" [] [])
      = stW.memory
        ++ [("x", queryResponse (query simEmpty llm0 engine0 stW "x" "comprehensive" [] []))]
  ∧ listContains (String.toList "x")
      (String.toList ((queryPrompts (query simEmpty llm0 engine0
        (stateOf (query simEmpty llm0 engine0 stW "x" "comprehensive" [] []))
        "y" "comprehensive" [] [])).headD "")) :=
  ⟨memory_comprehensive_only.1 simEmpty llm0 engine0 stW "x" "paper_analysis" [] []
      (by decide),
   memory_comprehensive_only.2.1 simEmpty llm0 engine0 stW "x" [] [] testNodes rfl rfl,
   (memory_comprehensive_only.2.2 simEmpty llm0 engine0 stW "x" "y" [] [] testNodes
      rfl rfl (by unfold noSpecial; decide) (by unfold noSpecial; decide)).1⟩

/-!
## C8 — the overlap invariant

For text that reaches the character-level fallback (no configured separator
occurs), the merge loop produces 1000-character windows advancing by 800
characters, so consecutive chunks overlap by exactly 200 characters. For
separator-aligned splits the carried overlap is whole trailing splits
totalling at most 200 characters and can be empty, so the exact-200
invariant fails (see the counterexample).
-/

/-- 1000-character windows advancing by 800 characters (the final window
holds the remainder). -/
def windows (s : List Char) : List (List Char) :=
  if _h : s.length ≤ 1000 then (if s.isEmpty then [] else [s])
  else s.take 1000 :: windows (s.drop 800)
termination_by s.length
decreasing_by
  simp only [List.length_drop]
  omega

/-- The pop loop does nothing once the retained total is the overlap. -/
theorem popWhile_stop (l : List (List Char)) :
    popWhile 0 1000 200 1 l 200 = (l, 200) := by
  cases l with
  | nil => rfl
  | cons d rest => simp [popWhile]

/-- On single-character splits, the pop loop retains exactly the last 200
characters. -/
theorem popWhile_units : ∀ (q : List Char), 200 < q.length →
    popWhile 0 1000 200 1 (q.map (fun c => [c])) q.length
      = ((q.drop (q.length - 200)).map (fun c => [c]), 200) := by
  intro q
  induction q with
  | nil =>
    intro h
    simp at h
  | cons c q' ih =>
    intro h
    simp only [List.length_cons] at h
    rcases Nat.lt_or_ge 200 q'.length with h' | h'
    · simp only [List.map_cons, popWhile, List.length_cons]
      rw [if_pos (Or.inl (by omega))]
      rw [ite_self]
      have htot : q'.length + 1 - (List.length ([] : List Char) + 1 + 0) = q'.length := by
        simp
      rw [htot, ih h']
      have hk : q'.length + 1 - 200 = (q'.length - 200) + 1 := by omega
      rw [hk, List.drop_succ_cons]
    · have h200 : q'.length = 200 := by omega
      simp only [List.map_cons, popWhile, List.length_cons]
      rw [if_pos (Or.inl (by omega))]
      rw [ite_self]
      have htot : q'.length + 1 - (List.length ([] : List Char) + 1 + 0) = 200 := by
        simp
        omega
      rw [htot, popWhile_stop]
      have hk : q'.length + 1 - 200 = 1 := by omega
      rw [hk, List.drop_succ_cons, List.drop_zero]

/-- Concatenating singleton splits gives back the text. -/
theorem flatten_units (p : List Char) : (p.map (fun c => [c])).flatten = p := by
  induction p with
  | nil => rfl
  | cons c t ih => simp [ih]

/-- Intercalating with the empty separator is concatenation. -/
theorem intercalate_nil_eq_flatten (xs : List (List Char)) :
    List.intercalate [] xs = xs.flatten := by
  induction xs with
  | nil => rfl
  | cons a t ih =>
    cases t with
    | nil => simp [List.intercalate]
    | cons b t2 =>
      simp only [List.intercalate] at *
      simp only [List.intersperse] at *
      simp only [List.flatten_cons] at *
      rw [ih]
      simp

/-- `strip` is the identity on whitespace-free text. -/
theorem pyStrip_no_space {l : List Char} (h : ∀ c ∈ l, pyIsSpace c = false) :
    pyStripChars l = l := by
  unfold pyStripChars
  have h1 : l.dropWhile pyIsSpace = l := by
    cases l with
    | nil => rfl
    | cons c t =>
      rw [List.dropWhile_cons_of_neg]
      simp [h c (List.mem_cons_self _ _)]
  rw [h1]
  have h2 : l.reverse.dropWhile pyIsSpace = l.reverse := by
    cases hr : l.reverse with
    | nil => rfl
    | cons c t =>
      have hc : c ∈ l := by
        rw [← List.mem_reverse, hr]
        exact List.mem_cons_self _ _
      rw [List.dropWhile_cons_of_neg]
      simp [h c hc]
  rw [h2, List.reverse_reverse]

/-- Joining singleton splits of whitespace-free text. -/
theorem joinDocs_units {p : List Char} (h : ∀ c ∈ p, pyIsSpace c = false) :
    joinDocs (p.map (fun c => [c])) [] = if p.isEmpty then none else some p := by
  simp only [joinDocs, intercalate_nil_eq_flatten, flatten_units, pyStrip_no_space h]

/-- The merge loop on single-character splits produces exactly the
1000/800 windows of the concatenated text (window state `p`, remaining
text `cs`). -/
theorem mergeLoop_units : ∀ (cs p : List Char) (docs : List (List Char)),
    p.length ≤ 1000 →
    (∀ c ∈ p, pyIsSpace c = false) →
    (∀ c ∈ cs, pyIsSpace c = false) →
    mergeLoop [] 1000 200 (cs.map (fun c => [c])) (p.map (fun c => [c])) p.length docs
      = docs ++ windows (p ++ cs) := by
  intro cs
  induction cs with
  | nil =>
    intro p docs hp hsp _
    simp only [List.map_nil, mergeLoop]
    rw [joinDocs_units hsp, List.append_nil]
    rw [windows, dif_pos hp]
    cases hpe : p.isEmpty <;> simp [hpe]
  | cons d cs' ih =>
    intro p docs hp hsp hcs
    have hcs' : ∀ c ∈ cs', pyIsSpace c = false :=
      fun c hc => hcs c (List.mem_cons_of_mem _ hc)
    have hpd : ∀ c ∈ p ++ [d], pyIsSpace c = false := by
      intro c hc
      rcases List.mem_append.mp hc with hc | hc
      · exact hsp c hc
      · rw [List.mem_singleton.mp hc]
        exact hcs d (List.mem_cons_self _ _)
    simp only [List.map_cons, mergeLoop, List.length_nil, ite_self,
      Nat.add_zero, List.length_singleton]
    by_cases hbig : p.length + 1 > 1000
    · have hlen : p.length = 1000 := by omega
      rw [if_pos hbig]
      have hpne : (p.map (fun c => [c])).isEmpty = false := by
        cases p with
        | nil => simp at hlen
        | cons x t => rfl
      simp only [hpne, Bool.false_eq_true, if_false]
      rw [joinDocs_units hsp]
      have hpne' : p.isEmpty = false := by
        cases p with
        | nil => simp at hlen
        | cons x t => rfl
      simp only [hpne', Bool.false_eq_true, if_false, Option.toList_some]
      rw [popWhile_units p (by omega), hlen]
      have hdm : (p.drop 800).map (fun c => [c]) ++ [[d]]
          = ((p.drop 800) ++ [d]).map (fun c => [c]) := by
        simp
      have hdne : ((p.drop 800).map (fun c => [c])).isEmpty = false := by
        have : (p.drop 800).length = 200 := by
          rw [List.length_drop, hlen]
        cases hd8 : p.drop 800 with
        | nil =>
          rw [hd8] at this
          simp at this
        | cons x t => rfl
      simp only [hdne, Bool.false_eq_true, if_false, Nat.add_zero]
      rw [hdm]
      have hlen201 : 200 + 1 = ((p.drop 800) ++ [d]).length := by
        simp [List.length_drop, hlen]
      rw [hlen201]
      have hdrop_ws : ∀ c ∈ (p.drop 800) ++ [d], pyIsSpace c = false := by
        intro c hc
        rcases List.mem_append.mp hc with hc | hc
        · exact hsp c (List.mem_of_mem_drop hc)
        · rw [List.mem_singleton.mp hc]
          exact hcs d (List.mem_cons_self _ _)
      rw [ih ((p.drop 800) ++ [d]) (docs ++ [p])
        (by simp [List.length_drop, hlen]) hdrop_ws hcs']
      have hwin : windows (p ++ d :: cs')
          = p :: windows ((p.drop 800) ++ (d :: cs')) := by
        rw [windows]
        have hlen2 : (p ++ d :: cs').length = 1000 + (cs'.length + 1) := by
          simp [hlen]
        rw [dif_neg (by omega)]
        have htake : (p ++ d :: cs').take 1000 = p := by
          rw [show (1000 : Nat) = p.length from hlen.symm]
          exact List.take_left _ _
        have hdrop : (p ++ d :: cs').drop 800 = (p.drop 800) ++ (d :: cs') :=
          List.drop_append_of_le_length (by omega)
        rw [htake, hdrop]
      rw [hwin]
      simp [List.append_assoc]
    · rw [if_neg hbig]
      have hdm : p.map (fun c => [c]) ++ [[d]] = (p ++ [d]).map (fun c => [c]) := by
        simp
      have hlen1 : p.length + 1 = (p ++ [d]).length := by simp
      rw [hdm, hlen1, ih (p ++ [d]) docs (by simp; omega) hpd hcs']
      have : (p ++ [d]) ++ cs' = p ++ (d :: cs') := by
        simp
      rw [this]

/-- When no configured separator occurs in the text, the separator loop
falls through to the empty separator (character-level splitting). -/
theorem chooseSep_no_sep {cs : List Char}
    (hsep : ∀ s ∈ ragSeparators, s.isEmpty = false → containsSub cs s = false) :
    chooseSep ragSeparators cs = ([], []) := by
  have h1 := hsep ['\n', '\n'] (by simp [ragSeparators]) rfl
  have h2 := hsep ['\n'] (by simp [ragSeparators]) rfl
  have h3 := hsep ['。'] (by simp [ragSeparators]) rfl
  have h4 := hsep ['！'] (by simp [ragSeparators]) rfl
  have h5 := hsep ['？'] (by simp [ragSeparators]) rfl
  have h6 := hsep [';'] (by simp [ragSeparators]) rfl
  have h7 := hsep [':'] (by simp [ragSeparators]) rfl
  have h8 := hsep ['，'] (by simp [ragSeparators]) rfl
  have h9 := hsep [' '] (by simp [ragSeparators]) rfl
  simp [ragSeparators, chooseSep, h1, h2, h3, h4, h5, h6, h7, h8, h9]

/-- When every split is below the chunk size, the processing loop just
merges everything. -/
theorem processSplits_small : ∀ (splits fc goods : List (List Char))
    (r : Option (List Char → List (List Char))),
    (∀ s ∈ splits, s.length < 1000) →
    processSplits 1000 200 r splits fc goods
      = (if (goods ++ splits).isEmpty then fc
         else fc ++ mergeLoop [] 1000 200 (goods ++ splits) [] 0 []) := by
  intro splits
  induction splits with
  | nil =>
    intro fc goods r _
    simp [processSplits]
  | cons s rest ih =>
    intro fc goods r h
    have hs : s.length < 1000 := h s (List.mem_cons_self _ _)
    simp only [processSplits]
    rw [if_pos hs, ih fc (goods ++ [s]) r (fun x hx => h x (List.mem_cons_of_mem _ hx))]
    have : (goods ++ [s]) ++ rest = goods ++ (s :: rest) := by simp
    rw [this]

/-- On separator-free, whitespace-free text the splitter is exactly the
1000/800 window decomposition. -/
theorem splitTextChars_no_sep (cs : List Char)
    (hsep : ∀ s ∈ ragSeparators, s.isEmpty = false → containsSub cs s = false)
    (hsp : ∀ c ∈ cs, pyIsSpace c = false) :
    splitTextChars cs = windows cs := by
  have hfu : (cs.map (fun c => [c])).filter (fun s => !s.isEmpty) = cs.map (fun c => [c]) := by
    apply List.filter_eq_self.mpr
    intro a ha
    obtain ⟨c, _, rfl⟩ := List.mem_map.mp ha
    rfl
  have step : splitTextChars cs
      = processSplits 1000 200
          (if (chooseSep ragSeparators cs).2.isEmpty then none
           else some (fun s =>
             splitTextFuel 1000 200 9 (chooseSep ragSeparators cs).2 s))
          (if (chooseSep ragSeparators cs).1.isEmpty
           then (cs.map (fun c => [c])).filter (fun s => !s.isEmpty)
           else splitWithSep (chooseSep ragSeparators cs).1 cs)
          [] [] := rfl
  rw [step, chooseSep_no_sep hsep]
  simp only [List.isEmpty_nil, if_true, hfu]
  rw [processSplits_small _ _ _ _ (by
    intro s hs
    obtain ⟨c, _, rfl⟩ := List.mem_map.mp hs
    simp)]
  simp only [List.nil_append]
  cases hcs : cs with
  | nil =>
    simp [windows]
  | cons c t =>
    rw [hcs] at hsp
    have hne : ((c :: t).map (fun c => [c])).isEmpty = false := rfl
    simp only [hne, Bool.false_eq_true, if_false, List.nil_append]
    have hm := mergeLoop_units (c :: t) [] [] (by simp) (by simp) hsp
    simpa using hm

/-- Consecutive windows overlap by exactly 200 characters (fuel-indexed
strong induction on the text length). -/
theorem windows_overlap_fuel : ∀ (n : Nat) (s : List Char), s.length ≤ n →
    ∀ i : Nat, i + 1 < (windows s).length →
    200 ≤ ((windows s).getD i []).length →
    200 ≤ ((windows s).getD (i + 1) []).length →
    ((windows s).getD i []).drop (((windows s).getD i []).length - 200)
      = ((windows s).getD (i + 1) []).take 200 := by
  intro n
  induction n with
  | zero =>
    intro s hs i hi _ _
    have hnil : s = [] := List.length_eq_zero.mp (by omega)
    rw [hnil] at hi
    rw [windows] at hi
    simp at hi
  | succ n ih =>
    intro s hs i hi h1 h2
    by_cases hlen : s.length ≤ 1000
    · rw [windows, dif_pos hlen] at hi
      cases hse : s.isEmpty <;> rw [hse] at hi <;> simp at hi
    · rw [windows, dif_neg hlen] at hi h1 h2 ⊢
      cases i with
      | zero =>
        simp only [List.getD_cons_zero, List.getD_cons_succ] at h1 h2 ⊢
        have htk : (s.take 1000).length = 1000 := by
          rw [List.length_take]
          omega
        rw [htk]
        have hdt : (s.take 1000).drop 800 = (s.drop 800).take 200 := by
          rw [List.drop_take]
        rw [hdt]
        by_cases hl2 : (s.drop 800).length ≤ 1000
        · rw [windows, dif_pos hl2] at h2 ⊢
          have hdne : (s.drop 800).isEmpty = false := by
            have : (s.drop 800).length = s.length - 800 := List.length_drop _ _
            cases hd : s.drop 800 with
            | nil =>
              rw [hd] at this
              simp at this
              omega
            | cons x t => rfl
          rw [hdne] at h2 ⊢
          simp only [Bool.false_eq_true, if_false, List.getD_cons_zero] at h2 ⊢
        · rw [windows, dif_neg hl2] at h2 ⊢
          simp only [List.getD_cons_zero] at h2 ⊢
          rw [List.take_take]
          simp
      | succ j =>
        simp only [List.getD_cons_succ] at h1 h2 ⊢
        have hj : j + 1 < (windows (s.drop 800)).length := by
          simp only [List.length_cons] at hi
          omega
        exact ih (s.drop 800) (by
          rw [List.length_drop]
          omega) j hj h1 h2

/-- C8 (amended): when the text reaches the character-level fallback (no
configured separator occurs in it, and it is free of the whitespace that
chunk-joining strips), consecutive chunks of the default splitter
(size 1000, overlap 200) satisfy the exact overlap invariant: the last 200
characters of `c[i]` equal the first 200 characters of `c[i+1]`. For
separator-aligned splits the carried overlap is whole trailing splits
totalling at most 200 characters and can be empty, so the invariant as
originally claimed fails (see the counterexample). -/
theorem char_fallback_overlap (cs : List Char)
    (hsep : ∀ s ∈ ragSeparators, s.isEmpty = false → containsSub cs s = false)
    (hsp : ∀ c ∈ cs, pyIsSpace c = false)
    (i : Nat) (hi : i + 1 < (splitTextChars cs).length)
    (h1 : 200 ≤ ((splitTextChars cs).getD i []).length)
    (h2 : 200 ≤ ((splitTextChars cs).getD (i + 1) []).length) :
    ((splitTextChars cs).getD i []).drop (((splitTextChars cs).getD i []).length - 200)
      = ((splitTextChars cs).getD (i + 1) []).take 200 := by
  rw [splitTextChars_no_sep cs hsep hsp] at hi h1 h2 ⊢
  exact windows_overlap_fuel cs.length cs (by omega) i hi h1 h2

/-!
### Symbolic evaluation lemmas for the C8 counterexample and witness

Kernel reduction of 1800-character texts is out of reach, so the concrete
splitter runs are evaluated symbolically over `List.replicate`.
-/


/-- A list is a boolean prefix of itself with anything appended. -/
theorem isPrefixOf_append_self (s y : List Char) : s.isPrefixOf (s ++ y) = true := by
  induction s with
  | nil =>
    rw [List.nil_append]
    cases y <;> rfl
  | cons c t ih => simp [List.isPrefixOf, ih]

/-- A text starting with the pattern contains it. -/
theorem containsSub_of_isPrefixOf {l s : List Char} (h : s.isPrefixOf l = true) :
    containsSub l s = true := by
  unfold containsSub
  cases l with
  | nil => simp only [List.tails, List.any_cons, List.any_nil, h, Bool.true_or]
  | cons a t => simp only [List.tails, List.any_cons, h, Bool.true_or]

/-- A text with the pattern in its middle contains it. -/
theorem containsSub_append (x s y : List Char) :
    containsSub (x ++ (s ++ y)) s = true := by
  induction x with
  | nil =>
    rw [List.nil_append]
    exact containsSub_of_isPrefixOf (isPrefixOf_append_self s y)
  | cons c x' ih =>
    rw [List.cons_append]
    unfold containsSub at *
    simp only [List.tails, List.any_cons, ih, Bool.or_true]

/-- A uniform text made of a different character does not contain the
pattern. -/
theorem containsSub_replicate_ne (n : Nat) (a c : Char) (sep' : List Char)
    (h : (c == a) = false) :
    containsSub (List.replicate n a) (c :: sep') = false := by
  induction n with
  | zero => rfl
  | succ n ih =>
    rw [List.replicate_succ]
    unfold containsSub at *
    simp only [List.tails, List.any_cons, ih, Bool.or_false, List.isPrefixOf, h,
      Bool.false_and]

/-- `findSep` finds nothing in a uniform text of a different character. -/
theorem findSep_replicate_ne (n : Nat) (a c : Char) (sep' : List Char)
    (h : (c == a) = false) :
    findSep (c :: sep') (List.replicate n a) = none := by
  induction n with
  | zero => rfl
  | succ n ih =>
    rw [List.replicate_succ]
    simp only [findSep]
    rw [if_neg (by simp [List.isPrefixOf, h]), ih]

/-- `findSep` splits a uniform block followed by the separator. -/
theorem findSep_replicate_append (n : Nat) (a c : Char) (sep' y : List Char)
    (h : (c == a) = false) :
    findSep (c :: sep') (List.replicate n a ++ ((c :: sep') ++ y))
      = some (List.replicate n a, y) := by
  induction n with
  | zero =>
    rw [List.replicate_zero, List.nil_append, List.cons_append]
    simp only [findSep]
    rw [if_pos (by simp [List.isPrefixOf, isPrefixOf_append_self])]
    simp [List.drop_left]
  | succ n ih =>
    rw [List.replicate_succ, List.cons_append]
    simp only [findSep]
    rw [if_neg (by simp [List.isPrefixOf, h]), ih]

/-- One unfolding of the fueled split when the separator occurs. -/
theorem splitParts_succ_some (sep : List Char) (m : Nat) (text pre post : List Char)
    (h : findSep sep text = some (pre, post)) :
    splitParts sep (m + 1) text = pre :: splitParts sep m post := by
  show (match findSep sep text with
        | none => [text]
        | some pr => pr.1 :: splitParts sep m pr.2) = pre :: splitParts sep m post
  rw [h]

/-- One unfolding of the fueled split when the separator is absent. -/
theorem splitParts_succ_none (sep : List Char) (m : Nat) (text : List Char)
    (h : findSep sep text = none) :
    splitParts sep (m + 1) text = [text] := by
  show (match findSep sep text with
        | none => [text]
        | some pr => pr.1 :: splitParts sep m pr.2) = [text]
  rw [h]

/-- A non-trivial replicate is not the empty list. -/
theorem isEmpty_replicate_succ (n : Nat) (a : Char) (h : n ≠ 0) :
    (List.replicate n a).isEmpty = false := by
  cases n with
  | zero => exact absurd rfl h
  | succ m =>
    rw [List.replicate_succ]
    rfl

/-- Stripping a uniform non-whitespace text is the identity. -/
theorem pyStrip_replicate (n : Nat) (a : Char) (ha : pyIsSpace a = false) :
    pyStripChars (List.replicate n a) = List.replicate n a :=
  pyStrip_no_space (fun c hc => by
    rw [List.eq_of_mem_replicate hc]
    exact ha)

/-- Stripping two leading newlines off a uniform non-whitespace text. -/
theorem pyStrip_nn (n : Nat) (b : Char) (hb : pyIsSpace b = false) :
    pyStripChars ('\n' :: '\n' :: List.replicate n b) = List.replicate n b := by
  unfold pyStripChars
  rw [List.dropWhile_cons_of_pos (by decide), List.dropWhile_cons_of_pos (by decide)]
  have h1 : (List.replicate n b).dropWhile pyIsSpace = List.replicate n b := by
    cases n with
    | zero => rfl
    | succ m =>
      rw [List.replicate_succ, List.dropWhile_cons_of_neg (by simp [hb])]
  rw [h1]
  have h2 : (List.replicate n b).reverse.dropWhile pyIsSpace
      = (List.replicate n b).reverse := by
    rw [List.reverse_replicate]
    cases n with
    | zero => rfl
    | succ m =>
      rw [List.replicate_succ, List.dropWhile_cons_of_neg (by simp [hb])]
  rw [h2, List.reverse_reverse]

/-- Joining a single split strips it. -/
theorem joinDocs_single (l : List Char) :
    joinDocs [l] []
      = (if (pyStripChars l).isEmpty then none else some (pyStripChars l)) := by
  unfold joinDocs
  rw [intercalate_nil_eq_flatten]
  simp

/-- The merge loop on an exhausted split list. -/
theorem mergeLoop_nil_eq (sep : List Char) (cS o : Nat) (cur : List (List Char))
    (total : Nat) (docs : List (List Char)) :
    mergeLoop sep cS o [] cur total docs = docs ++ (joinDocs cur sep).toList := rfl

/-- A merge step where the next split still fits. -/
theorem mergeLoop_cons_fit (sep : List Char) (cS o : Nat) (d : List Char)
    (rest cur : List (List Char)) (total : Nat) (docs : List (List Char))
    (h : ¬ (total + d.length + (if cur.isEmpty then 0 else sep.length) > cS)) :
    mergeLoop sep cS o (d :: rest) cur total docs
      = mergeLoop sep cS o rest (cur ++ [d])
          (total + d.length + (if cur.isEmpty then 0 else sep.length)) docs := by
  simp only [mergeLoop]
  rw [if_neg h]

/-- A merge step that flushes the current chunk. -/
theorem mergeLoop_cons_flush (sep : List Char) (cS o : Nat) (d : List Char)
    (rest cur : List (List Char)) (total : Nat) (docs : List (List Char))
    (h : total + d.length + (if cur.isEmpty then 0 else sep.length) > cS)
    (hcur : cur.isEmpty = false) :
    mergeLoop sep cS o (d :: rest) cur total docs
      = mergeLoop sep cS o rest
          ((popWhile sep.length cS o d.length cur total).1 ++ [d])
          ((popWhile sep.length cS o d.length cur total).2 + d.length
            + (if (popWhile sep.length cS o d.length cur total).1.isEmpty
               then 0 else sep.length))
          (docs ++ (joinDocs cur sep).toList) := by
  simp only [mergeLoop]
  rw [if_pos h]
  simp [hcur]

/-- Popping a lone oversized split empties the window. -/
theorem popWhile_single (q : List Char) (dlen t : Nat) (ht : t = q.length)
    (h : 200 < t) :
    popWhile 0 1000 200 dlen [q] t = ([], 0) := by
  subst ht
  simp only [popWhile]
  rw [if_pos (Or.inl h)]
  simp [popWhile]

/-- The separator-aligned counterexample text: three 600-character blocks
joined by blank lines. -/
def c8text : List Char :=
  List.replicate 600 'a' ++ ['\n', '\n'] ++ List.replicate 600 'b'
    ++ ['\n', '\n'] ++ List.replicate 600 'c'

/-- `c8text`, right-associated. -/
theorem c8text_shape : c8text
    = List.replicate 600 'a'
      ++ (('\n' :: ['\n'])
        ++ (List.replicate 600 'b' ++ (('\n' :: ['\n']) ++ List.replicate 600 'c'))) := by
  simp [c8text]

/-- The separator chosen for `c8text` is the blank line. -/
theorem chooseSep_c8 : chooseSep ragSeparators c8text
    = (['\n', '\n'],
       [['\n'], ['。'], ['！'], ['？'], [';'], [':'], ['，'], [' '], []]) := by
  have hc : containsSub c8text ['\n', '\n'] = true := by
    rw [c8text_shape]
    exact containsSub_append _ _ _
  simp [ragSeparators, chooseSep, hc]

/-- The pieces of `c8text` between blank-line separators. -/
theorem splitParts_c8 :
    splitParts ['\n', '\n'] (c8text.length + 1) c8text
      = [List.replicate 600 'a', List.replicate 600 'b', List.replicate 600 'c'] := by
  have hf1 : findSep ['\n', '\n'] c8text
      = some (List.replicate 600 'a',
          List.replicate 600 'b' ++ (('\n' :: ['\n']) ++ List.replicate 600 'c')) := by
    rw [c8text_shape]
    exact findSep_replicate_append 600 'a' '\n' ['\n'] _ (by decide)
  rw [splitParts_succ_some _ _ _ _ _ hf1]
  have hlen : c8text.length = 1803 + 1 := by
    simp [c8text]
  rw [hlen]
  rw [splitParts_succ_some _ _ _ _ _
    (findSep_replicate_append 600 'b' '\n' ['\n'] _ (by decide))]
  rw [show (1803 : Nat) = 1802 + 1 from rfl]
  rw [splitParts_succ_none _ _ _ (findSep_replicate_ne 600 'c' '\n' ['\n'] (by decide))]

/-- The keep-separator split of `c8text` on blank lines. -/
theorem splitWithSep_c8 : splitWithSep ['\n', '\n'] c8text
    = [List.replicate 600 'a',
       '\n' :: '\n' :: List.replicate 600 'b',
       '\n' :: '\n' :: List.replicate 600 'c'] := by
  unfold splitWithSep
  rw [splitParts_c8]
  have e1 : (List.replicate 600 'a').isEmpty = false :=
    isEmpty_replicate_succ _ _ (by decide)
  simp [List.filter, e1]

/-- The merge of the three separator-carrying splits of `c8text`: the three
stripped blocks, with no carried overlap at all. -/
theorem mergeLoop_c8 :
    mergeLoop [] 1000 200
      [List.replicate 600 'a',
       '\n' :: '\n' :: List.replicate 600 'b',
       '\n' :: '\n' :: List.replicate 600 'c'] [] 0 []
    = [List.replicate 600 'a', List.replicate 600 'b', List.replicate 600 'c'] := by
  have la : (List.replicate 600 'a').length = 600 := List.length_replicate _ _
  have lb : ('\n' :: '\n' :: List.replicate 600 'b').length = 602 := by simp
  have lc2 : ('\n' :: '\n' :: List.replicate 600 'c').length = 602 := by simp
  have hj1 : joinDocs [List.replicate 600 'a'] ([] : List Char)
      = some (List.replicate 600 'a') := by
    rw [joinDocs_single, pyStrip_replicate _ _ (by decide),
      isEmpty_replicate_succ _ _ (by decide)]
    simp
  have hj2 : joinDocs ['\n' :: '\n' :: List.replicate 600 'b'] ([] : List Char)
      = some (List.replicate 600 'b') := by
    rw [joinDocs_single, pyStrip_nn _ _ (by decide),
      isEmpty_replicate_succ _ _ (by decide)]
    simp
  have hj3 : joinDocs ['\n' :: '\n' :: List.replicate 600 'c'] ([] : List Char)
      = some (List.replicate 600 'c') := by
    rw [joinDocs_single, pyStrip_nn _ _ (by decide),
      isEmpty_replicate_succ _ _ (by decide)]
    simp
  rw [mergeLoop_cons_fit _ _ _ _ _ _ _ _ (by simp [la])]
  simp only [List.nil_append, List.isEmpty_nil, List.length_nil, la, if_true,
    Nat.zero_add, Nat.add_zero]
  rw [mergeLoop_cons_flush _ _ _ _ _ _ _ _ (by simp [lb]) (by rfl)]
  simp only [List.length_nil]
  rw [popWhile_single (List.replicate 600 'a') _ 600 la.symm (by norm_num)]
  simp only [hj1, List.nil_append, List.isEmpty_nil, List.length_nil, lb, if_true,
    Nat.zero_add, Nat.add_zero, Option.toList_some]
  rw [mergeLoop_cons_flush _ _ _ _ _ _ _ _ (by simp [lb, lc2]) (by rfl)]
  simp only [List.length_nil]
  rw [popWhile_single ('\n' :: '\n' :: List.replicate 600 'b') _ 602 lb.symm
    (by norm_num)]
  simp only [hj2, List.nil_append, List.isEmpty_nil, List.length_nil, lc2, if_true,
    Nat.zero_add, Nat.add_zero, Option.toList_some]
  rw [mergeLoop_nil_eq, hj3]
  simp

/-- The full splitter run on the counterexample text. -/
theorem splitTextChars_c8 :
    splitTextChars c8text
      = [List.replicate 600 'a', List.replicate 600 'b', List.replicate 600 'c'] := by
  have step : splitTextChars c8text
      = processSplits 1000 200
          (if (chooseSep ragSeparators c8text).2.isEmpty then none
           else some (fun s =>
             splitTextFuel 1000 200 9 (chooseSep ragSeparators c8text).2 s))
          (if (chooseSep ragSeparators c8text).1.isEmpty
           then (c8text.map (fun c => [c])).filter (fun s => !s.isEmpty)
           else splitWithSep (chooseSep ragSeparators c8text).1 c8text)
          [] [] := rfl
  rw [step, chooseSep_c8]
  simp only [List.isEmpty_cons, Bool.false_eq_true, if_false, splitWithSep_c8]
  rw [processSplits_small _ _ _ _ (by
    intro s hs
    simp only [List.mem_cons, List.not_mem_nil, or_false] at hs
    rcases hs with rfl | rfl | rfl <;> simp)]
  simp only [List.nil_append, List.isEmpty_cons, Bool.false_eq_true, if_false]
  exact mergeLoop_c8

/-- C8 counterexample: on three 600-character paragraphs the default
splitter (size 1000, overlap 200) emits the three blocks as chunks sharing
NO overlap at all — the last 200 characters of chunk 0 differ from the
first 200 characters of chunk 1 although both chunks exceed 200
characters. -/
theorem separator_chunks_no_overlap :
    splitTextChars c8text
      = [List.replicate 600 'a', List.replicate 600 'b', List.replicate 600 'c']
  ∧ 200 ≤ ((splitTextChars c8text).getD 0 []).length
  ∧ 200 ≤ ((splitTextChars c8text).getD 1 []).length
  ∧ ((splitTextChars c8text).getD 0 []).drop
        (((splitTextChars c8text).getD 0 []).length - 200)
      ≠ ((splitTextChars c8text).getD 1 []).take 200 := by
  refine ⟨splitTextChars_c8, ?_, ?_, ?_⟩
  · rw [splitTextChars_c8]
    simp
  · rw [splitTextChars_c8]
    simp
  · rw [splitTextChars_c8]
    simp only [List.getD_cons_zero, List.getD_cons_succ, List.length_replicate]
    rw [List.drop_replicate, List.take_replicate]
    norm_num
    decide

/-- Witness for C8 at a concrete separator-free text of 1201 characters:
the two chunks (1000 and 401 characters) overlap in exactly their 200
boundary characters. -/
theorem char_fallback_overlap_witness :
    ((splitTextChars (List.replicate 1201 'a')).getD 0 []).drop
        (((splitTextChars (List.replicate 1201 'a')).getD 0 []).length - 200)
      = ((splitTextChars (List.replicate 1201 'a')).getD 1 []).take 200 := by
  have hsep : ∀ s ∈ ragSeparators, s.isEmpty = false →
      containsSub (List.replicate 1201 'a') s = false := by
    intro s hs hne
    simp only [ragSeparators, List.mem_cons, List.not_mem_nil, or_false] at hs
    rcases hs with rfl | rfl | rfl | rfl | rfl | rfl | rfl | rfl | rfl | rfl
    · exact containsSub_replicate_ne _ _ _ _ (by decide)
    · exact containsSub_replicate_ne _ _ _ _ (by decide)
    · exact containsSub_replicate_ne _ _ _ _ (by decide)
    · exact containsSub_replicate_ne _ _ _ _ (by decide)
    · exact containsSub_replicate_ne _ _ _ _ (by decide)
    · exact containsSub_replicate_ne _ _ _ _ (by decide)
    · exact containsSub_replicate_ne _ _ _ _ (by decide)
    · exact containsSub_replicate_ne _ _ _ _ (by decide)
    · exact containsSub_replicate_ne _ _ _ _ (by decide)
    · simp at hne
  have hsp : ∀ c ∈ List.replicate 1201 'a', pyIsSpace c = false := by
    intro c hc
    rw [List.eq_of_mem_replicate hc]
    decide
  have hw : splitTextChars (List.replicate 1201 'a')
      = [List.replicate 1000 'a', List.replicate 401 'a'] := by
    rw [splitTextChars_no_sep _ hsep hsp]
    rw [windows]
    rw [dif_neg (by simp)]
    rw [List.take_replicate, List.drop_replicate]
    norm_num
    rw [windows]
    rw [dif_pos (by simp)]
    rw [isEmpty_replicate_succ _ _ (by decide)]
    simp
  exact char_fallback_overlap (List.replicate 1201 'a') hsep hsp 0
    (by rw [hw]; simp)
    (by rw [hw]; simp)
    (by rw [hw]; simp)
